import Mathlib

/-!
# Shallow embedding of the `ts-firebase-simulator` in-memory Firestore engine

This file embeds the core of `src/triggers.ts` (the `StubFirestoreDatabase`
engine: document store, field-value resolution, query pipeline, transactions,
write batches, trigger dispatch and watcher notification) as executable Lean
definitions, and proves or refutes the specification claims about it.

Modelling conventions:
* JavaScript values are the inductive `JSVal`; numbers are `Int` (the claims
  under study involve no fractional arithmetic), `NaN` is the explicit
  variant `JSVal.vnan`, and the `FieldValue` sentinel marker objects
  (`NumericIncrementTransform`, `ServerTimestampTransform`, `DeleteTransform`)
  that the source detects via `constructor.name` are tagged variants.
* JS objects are insertion-ordered association lists; `Map` objects are
  insertion-ordered association lists whose `set` overwrites in place.
* The asynchronous surface is collapsed: every engine operation is logically
  synchronous in the source (§5 of the spec), exceptions become `Except` /
  explicit error results, and scheduled-but-not-yet-run microtasks
  (initial watcher deliveries, query re-evaluations) are an explicit queue.
* Observable side effects (trigger handler invocations, watcher callback
  deliveries) are event logs on the database state.
-/

/-- A JavaScript runtime value as stored or written through the stub engine. -/
inductive JSVal where
  | vnum (n : Int)
  | vnan
  | vstr (s : String)
  | vbool (b : Bool)
  | vnull
  | vundef
  | varr (elems : List JSVal)
  | vobj (fields : List (String × JSVal))
  | vtimestamp (seconds nanoseconds : Int)
  | sIncrement (operand : Int)
  | sServerTimestamp
  | sDelete
  deriving Repr

namespace JSVal

mutual

/-- Structural equality on `JSVal` (Boolean-valued, executable). -/
def beqVal : JSVal → JSVal → Bool
  | vnum a, vnum b => a == b
  | vnan, vnan => true
  | vstr a, vstr b => a == b
  | vbool a, vbool b => a == b
  | vnull, vnull => true
  | vundef, vundef => true
  | varr a, varr b => beqList a b
  | vobj a, vobj b => beqFields a b
  | vtimestamp s1 n1, vtimestamp s2 n2 => s1 == s2 && n1 == n2
  | sIncrement a, sIncrement b => a == b
  | sServerTimestamp, sServerTimestamp => true
  | sDelete, sDelete => true
  | _, _ => false

def beqList : List JSVal → List JSVal → Bool
  | [], [] => true
  | a :: as1, b :: bs1 => beqVal a b && beqList as1 bs1
  | _, _ => false

def beqFields : List (String × JSVal) → List (String × JSVal) → Bool
  | [], [] => true
  | (k1, v1) :: as1, (k2, v2) :: bs1 => k1 == k2 && beqVal v1 v2 && beqFields as1 bs1
  | _, _ => false

end

instance : BEq JSVal := ⟨beqVal⟩

mutual

theorem beqVal_refl : ∀ (a : JSVal), beqVal a a = true
  | vnum _ | vnan | vstr _ | vbool _ | vnull | vundef => by simp [beqVal]
  | varr l => by simp [beqVal, beqList_refl l]
  | vobj l => by simp [beqVal, beqFields_refl l]
  | vtimestamp _ _ => by simp [beqVal]
  | sIncrement _ => by simp [beqVal]
  | sServerTimestamp | sDelete => by simp [beqVal]

theorem beqList_refl : ∀ (l : List JSVal), beqList l l = true
  | [] => by simp [beqList]
  | a :: rest => by simp [beqList, beqVal_refl a, beqList_refl rest]

theorem beqFields_refl : ∀ (l : List (String × JSVal)), beqFields l l = true
  | [] => by simp [beqFields]
  | (_, v) :: rest => by simp [beqFields, beqVal_refl v, beqFields_refl rest]

end

mutual

theorem eq_of_beqVal : ∀ {a b : JSVal}, beqVal a b = true → a = b
  | vnum _, vnum _, h => by simp [beqVal] at h; rw [h]
  | vnan, vnan, _ => rfl
  | vstr _, vstr _, h => by simp [beqVal] at h; rw [h]
  | vbool _, vbool _, h => by simp [beqVal] at h; rw [h]
  | vnull, vnull, _ => rfl
  | vundef, vundef, _ => rfl
  | varr _, varr _, h => congrArg varr (eq_of_beqList (by simpa [beqVal] using h))
  | vobj _, vobj _, h => congrArg vobj (eq_of_beqFields (by simpa [beqVal] using h))
  | vtimestamp _ _, vtimestamp _ _, h => by
      simp [beqVal] at h
      rw [h.1, h.2]
  | sIncrement _, sIncrement _, h => by simp [beqVal] at h; rw [h]
  | sServerTimestamp, sServerTimestamp, _ => rfl
  | sDelete, sDelete, _ => rfl

theorem eq_of_beqList : ∀ {a b : List JSVal}, beqList a b = true → a = b
  | [], [], _ => rfl
  | _ :: _, _ :: _, h => by
      simp only [beqList, Bool.and_eq_true] at h
      rw [eq_of_beqVal h.1, eq_of_beqList h.2]

theorem eq_of_beqFields : ∀ {a b : List (String × JSVal)}, beqFields a b = true → a = b
  | [], [], _ => rfl
  | (_, _) :: _, (_, _) :: _, h => by
      simp only [beqFields, Bool.and_eq_true, beq_iff_eq] at h
      rw [h.1.1, eq_of_beqVal h.1.2, eq_of_beqFields h.2]

end

instance : DecidableEq JSVal := fun a b =>
  if h : beqVal a b = true then .isTrue (eq_of_beqVal h)
  else .isFalse (fun he => h (he ▸ beqVal_refl a))

end JSVal

/-! ## String helpers

The source manipulates paths with `String.prototype.split('/')`,
`Array.prototype.join('/')` and `String.prototype.includes('.')`.  These are
re-implemented over `List Char` so that every definition reduces inside the
kernel.  JS `"".split('/')` yields `[""]`, which the implementations below
reproduce. -/

def splitOnCharAux (sep : Char) : List Char → List Char → List String
  | [], acc => [String.mk acc.reverse]
  | c :: cs, acc =>
      if c == sep then String.mk acc.reverse :: splitOnCharAux sep cs []
      else splitOnCharAux sep cs (c :: acc)

/-- JS `s.split(sep)` for a single-character separator. -/
def splitOnChar (sep : Char) (s : String) : List String :=
  splitOnCharAux sep s.toList []

/-- JS `parts.join(sep)`. -/
def joinSep (sep : String) : List String → String
  | [] => ""
  | [x] => x
  | x :: xs => x ++ sep ++ joinSep sep xs

/-- JS `s.includes(c)` for a single character. -/
def containsChar (s : String) (c : Char) : Bool :=
  s.toList.contains c

/-- Decimal rendering of a natural number (fuel-based so it reduces). -/
def natToStrAux : Nat → Nat → List Char → List Char
  | 0, _, acc => acc
  | fuel + 1, n, acc =>
      let d := Char.ofNat (48 + n % 10)
      if n < 10 then d :: acc else natToStrAux fuel (n / 10) (d :: acc)

def natToStr (n : Nat) : String := String.mk (natToStrAux (n + 1) n [])

def intToStr : Int → String
  | .ofNat n => natToStr n
  | .negSucc n => "-" ++ natToStr (n + 1)

namespace JSVal

/-! ## JS value operations used by the engine -/

/-- JS truthiness. `NaN`, `0`, `""`, `null`, `undefined` and `false` are
falsy; every object (arrays, plain objects, `Timestamp`s, the sentinel
marker objects) is truthy. -/
def truthy : JSVal → Bool
  | vnum n => n != 0
  | vnan => false
  | vstr s => s != ""
  | vbool b => b
  | vnull => false
  | vundef => false
  | _ => true

/-- JS `a || b`. -/
def jsOr (a b : JSVal) : JSVal := if a.truthy then a else b

mutual

/-- JS `ToString` as used by string concatenation.  Arrays render as the
comma-join of their elements (`null`/`undefined` elements render empty),
plain objects and the sentinel marker objects render as
`"[object Object]"`. -/
def display : JSVal → String
  | vnum n => intToStr n
  | vnan => "NaN"
  | vstr s => s
  | vbool b => if b then "true" else "false"
  | vnull => "null"
  | vundef => "undefined"
  | varr l => displayList l
  | vobj _ => "[object Object]"
  | vtimestamp s n =>
      "Timestamp(seconds=" ++ intToStr s ++ ", nanoseconds=" ++ intToStr n ++ ")"
  | sIncrement _ => "[object Object]"
  | sServerTimestamp => "[object Object]"
  | sDelete => "[object Object]"

def displayList : List JSVal → String
  | [] => ""
  | [vnull] => ""
  | [vundef] => ""
  | [x] => display x
  | vnull :: xs => "," ++ displayList xs
  | vundef :: xs => "," ++ displayList xs
  | x :: xs => display x ++ "," ++ displayList xs

end

/-- JS `a + n` where the right operand is a number — the only shape of
addition the engine performs (resolving `FieldValue.increment`).  Numbers
add; `true`/`false`/`null` coerce to numbers; `undefined` gives `NaN`;
strings and objects concatenate. -/
def jsAdd (a : JSVal) (n : Int) : JSVal :=
  match a with
  | vnum x => vnum (x + n)
  | vnan => vnan
  | vbool b => vnum ((if b then 1 else 0) + n)
  | vnull => vnum n
  | vundef => vnan
  | a => vstr (a.display ++ intToStr n)

/-- JS strict equality `===` on the embedded values.  Two structurally equal
arrays / objects / `Timestamp`s built at different program points are
distinct references in JS, hence `false` here; `NaN === NaN` is `false`. -/
def strictEq : JSVal → JSVal → Bool
  | vnum a, vnum b => a == b
  | vstr a, vstr b => a == b
  | vbool a, vbool b => a == b
  | vnull, vnull => true
  | vundef, vundef => true
  | _, _ => false

/-- JS `SameValueZero`, the equality used by `Array.prototype.includes`:
like `===` but `NaN` matches `NaN`. -/
def sameValueZero : JSVal → JSVal → Bool
  | vnan, vnan => true
  | a, b => strictEq a b

/-- `ToNumber` on non-string primitives (`none` = `NaN`); used by the
relational operators. -/
def toPrimNum : JSVal → Option Int
  | vnum n => some n
  | vbool b => some (if b then 1 else 0)
  | vnull => some 0
  | _ => none

/-- JS `a < b` restricted to the comparisons the engine can meet: two
strings compare lexicographically, otherwise both sides go through
`ToNumber` (a `NaN` side makes the comparison `false`).  Numeric-string
coercion is not modelled; the spec calls cross-type comparison undefined
behaviour. -/
def jsLtB (a b : JSVal) : Bool :=
  match a, b with
  | vstr x, vstr y => decide (x < y)
  | _, _ =>
      match a.toPrimNum, b.toPrimNum with
      | some x, some y => decide (x < y)
      | _, _ => false

/-- First-match association lookup, JS object property read. -/
def objFind : List (String × JSVal) → String → Option JSVal
  | [], _ => none
  | (k, v) :: rest, key => if k == key then some v else objFind rest key

/-- JS property read `v[key]`: real lookup on objects, `undefined`
anywhere else. -/
def jsIndex : JSVal → String → JSVal
  | vobj fields, key => (objFind fields key).getD vundef
  | _, _ => vundef

/-- JS indexed read `v[i]` (array element or object property `"i"`). -/
def jsIndexNat : JSVal → Nat → JSVal
  | varr l, i => (l.get? i).getD vundef
  | vobj fields, i => jsIndex (vobj fields) (natToStr i)
  | _, _ => vundef

/-- Does the object own the key (`key in obj`)? `false` on non-objects. -/
def hasKey : JSVal → String → Bool
  | vobj fields, key => fields.any (fun p => p.1 == key)
  | _, _ => false

/-- JS `typeof v === 'object'` (note `typeof null === 'object'`). -/
def isObjectType : JSVal → Bool
  | vobj _ => true
  | varr _ => true
  | vnull => true
  | vtimestamp _ _ => true
  | sIncrement _ => true
  | sServerTimestamp => true
  | sDelete => true
  | _ => false

/-- Is the value a plain JS object: `typeof v === 'object'` and not `null`,
not an array, not a `Timestamp`, not one of the `*Transform` sentinel
marker objects. -/
def isPlainObject : JSVal → Bool
  | vobj _ => true
  | _ => false

end JSVal

/-- JS object-assignment `obj[k] = v`: overwrite in place if the key is
present, append otherwise (insertion order preserved). -/
def objSet : List (String × JSVal) → String → JSVal → List (String × JSVal)
  | [], key, v => [(key, v)]
  | (k, w) :: rest, key, v =>
      if k == key then (k, v) :: rest else (k, w) :: objSet rest key v

/-- JS `delete obj[k]`. -/
def objRemove : List (String × JSVal) → String → List (String × JSVal)
  | [], _ => []
  | (k, w) :: rest, key =>
      if k == key then rest else (k, w) :: objRemove rest key

/-- JS spread `{...v}` as the engine uses it: the fields of a plain object,
`{}` for `null` and for the primitives the engine never spreads. -/
def spreadToObj : JSVal → List (String × JSVal)
  | .vobj fields => fields
  | _ => []

/-! ## Document store -/

/-- `StoredDocument` from the source: keyed by full slash-delimited path. -/
structure StoredDoc where
  id : String
  path : String
  data : JSVal
  exists_ : Bool
  deriving Repr, DecidableEq

/-- The `storage : Map<string, StoredDocument>`: an insertion-ordered
association list of path → document (JS `Map` iteration order is insertion
order, which the query pipeline depends on). -/
abbrev Storage := List (String × StoredDoc)

/-- JS `map.get(path)`. -/
def mapGet : Storage → String → Option StoredDoc
  | [], _ => none
  | (k, d) :: rest, path => if k == path then some d else mapGet rest path

/-- JS `map.set(path, doc)`: overwrite in place, else append. -/
def mapSet : Storage → String → StoredDoc → Storage
  | [], path, doc => [(path, doc)]
  | (k, d) :: rest, path, doc =>
      if k == path then (k, doc) :: rest
      else (k, d) :: mapSet rest path doc

/-- JS `map.delete(path)`. -/
def mapDelete : Storage → String → Storage
  | [], _ => []
  | (k, d) :: rest, path =>
      if k == path then rest else (k, d) :: mapDelete rest path

/-- `id` getter of `StubDocumentReference`: the last path segment. -/
def pathId (documentPath : String) : String :=
  let parts := splitOnChar '/' documentPath
  (parts.getLast?).getD ""

/-! ## FieldValue resolution (`StubDocumentReference.processFieldValues`)

`processFieldValues(data, existingData)` walks the top level of `data`:
a `ServerTimestampTransform` becomes `Timestamp.now()` (threaded in here as
the explicit parameter `now`), a `NumericIncrementTransform` becomes
`(existingData[key] || 0) + operand`, and nested plain objects recurse via
`processFieldValuesInNestedObject` against `existingData[key]`.  Arrays are
spread (`[...data]`) when they are the argument itself, but array *values*
are never recursed into.  The `operand || 0` in the source is the identity
on our `Int` operand model (`0 || 0` is `0`). -/

mutual

/-- `processFieldValuesInNestedObject(nestedData, existingNestedData)`. -/
def processFVNested (now : JSVal) : JSVal → JSVal → JSVal
  | .vobj fields, existingNestedData =>
      .vobj (processFVNestedFields now fields existingNestedData)
  | .varr elems, existingNestedData =>
      .varr (processFVNestedElems now elems existingNestedData 0)
  | nestedData, _ => nestedData

def processFVNestedEntry (now : JSVal) (v existingAtKey : JSVal) : JSVal :=
  match v with
  | .sServerTimestamp => now
  | .sIncrement n => JSVal.jsAdd (JSVal.jsOr existingAtKey (.vnum 0)) n
  | .vobj fields => .vobj (processFVNestedFields now fields existingAtKey)
  | v => v

def processFVNestedFields (now : JSVal) :
    List (String × JSVal) → JSVal → List (String × JSVal)
  | [], _ => []
  | (k, v) :: rest, existingNestedData =>
      (k, processFVNestedEntry now v (existingNestedData.jsIndex k)) ::
        processFVNestedFields now rest existingNestedData

def processFVNestedElems (now : JSVal) :
    List JSVal → JSVal → Nat → List JSVal
  | [], _, _ => []
  | v :: rest, existingNestedData, i =>
      processFVNestedEntry now v (existingNestedData.jsIndexNat i) ::
        processFVNestedElems now rest existingNestedData (i + 1)

end

/-- `processFieldValues(data, existingData)`.  Identical key-by-key walk to
the nested processor (the two functions in the source differ only in
comments and in `existingData[key]` vs `existingNestedData?.[key]`, which
coincide in the total model). -/
def processFieldValues (now : JSVal) (data existingData : JSVal) : JSVal :=
  match data with
  | .vobj fields => .vobj (processFVNestedFields now fields existingData)
  | .varr elems => .varr (processFVNestedElems now elems existingData 0)
  | data => data

/-! ## Deep merge (`StubDocumentReference.deepMerge`) -/

mutual

/-- `deepMerge(existing, updates)`: non-objects / arrays / `null` /
`Timestamp`s replace wholesale; two plain objects merge key by key. -/
def deepMerge (existing updates : JSVal) : JSVal :=
  match updates with
  | .vobj updateFields =>
      match existing with
      | .vobj existingFields => .vobj (deepMergeInto existingFields updateFields)
      | _ => .vobj updateFields
  | updates => updates

def deepMergeInto (result : List (String × JSVal)) :
    List (String × JSVal) → List (String × JSVal)
  | [] => result
  | (key, updateValue) :: rest =>
      let existingValue := (JSVal.vobj result).jsIndex key
      let merged :=
        match updateValue, existingValue with
        | .vobj uf, .vobj ef => .vobj (deepMergeInto ef uf)
        | _, _ => updateValue
      deepMergeInto (objSet result key merged) rest

end

/-! ## Dot-notation updates (`StubDocumentReference.applyDotNotationUpdates`) -/

/-- The path-exists check performed before a dot-notation
`FieldValue.delete()`: every intermediate segment must be a present key
whose value has `typeof === 'object'`. -/
def dotPathIntermediatesExist : JSVal → List String → Bool
  | _, [] => true
  | _, [_] => true
  | temp, part :: rest =>
      if temp.hasKey part && (temp.jsIndex part).isObjectType then
        dotPathIntermediatesExist (temp.jsIndex part) rest
      else false

/-- Navigation plus final assignment for one dot-notation key: intermediate
segments that are absent or not of object type are replaced by `{}`,
otherwise copied (`{...current[part]}`); at the last segment the sentinel
is resolved (`serverTimestamp` → `now`, `increment` →
`(current[last] || 0) + n`, `delete` → key removal) or the raw value is
assigned. -/
def navAssign (now : JSVal) (value : JSVal) :
    List (String × JSVal) → List String → List (String × JSVal)
  | current, [] => current
  | current, [lastPart] =>
      match value with
      | .sServerTimestamp => objSet current lastPart now
      | .sIncrement n =>
          let currentValue := (JSVal.vobj current).jsIndex lastPart
          objSet current lastPart (JSVal.jsAdd (JSVal.jsOr currentValue (.vnum 0)) n)
      | .sDelete => objRemove current lastPart
      | v => objSet current lastPart v
  | current, part :: rest =>
      let child := (JSVal.vobj current).jsIndex part
      let childFields :=
        if (JSVal.vobj current).hasKey part && child.isObjectType
        then spreadToObj child else []
      objSet current part (.vobj (navAssign now value childFields rest))

/-- One step of the `for (const [key, value] of Object.entries(updates))`
loop in `applyDotNotationUpdates`. -/
def applyDotKey (now : JSVal) (result : List (String × JSVal))
    (key : String) (value : JSVal) : List (String × JSVal) :=
  if containsChar key '.' then
    let parts := splitOnChar '.' key
    if value == JSVal.sDelete &&
        !(dotPathIntermediatesExist (.vobj result) parts) then
      result
    else
      navAssign now value result parts
  else
    match value with
    | .sDelete => objRemove result key
    | v => objSet result key v

/-- `applyDotNotationUpdates(existingData, updates)`. -/
def applyDotNotationUpdates (now : JSVal) (existingData : JSVal)
    (updates : List (String × JSVal)) : List (String × JSVal) :=
  updates.foldl (fun result kv => applyDotKey now result kv.1 kv.2)
    (spreadToObj existingData)

/-! ## Trigger patterns (`compilePathPattern`)

A pattern is split on `/` (empty segments dropped); `**` becomes a
multi-segment capture `(.*)`, `{name}` and `*` become single-segment
captures `([^/]+)` (only `{name}` records a parameter name), anything else
matches literally.  Matching is modelled on the path's segment list: a
single-segment capture consumes one non-empty segment, `(.*)` consumes one
or more segments (the joined regex puts a `/` on each side of the group, so
it can never match across a missing separator) and captures their
`/`-join. -/

inductive PatSeg where
  | multi
  | capture (name : Option String)
  | lit (s : String)
  deriving Repr, DecidableEq

/-- Does the segment have the shape `{name}` (`PATH_PARAM_REGEX`)? -/
def paramNameOf (seg : String) : Option String :=
  match seg.toList with
  | '{' :: rest =>
      match rest.reverse with
      | '}' :: revName => if revName.isEmpty then none else some (String.mk revName.reverse)
      | _ => none
  | _ => none

def compileSeg (seg : String) : PatSeg :=
  if seg == "**" then .multi
  else
    match paramNameOf seg with
    | some name => .capture (some name)
    | none => if seg == "*" then .capture none else .lit seg

/-- `compilePathPattern` : segments plus the `{name}` parameter names in
pattern order. -/
def compilePathPattern (pattern : String) : List PatSeg × List String :=
  let segments := (splitOnChar '/' pattern).filter (fun s => s.length > 0)
  let compiled := segments.map compileSeg
  let paramNames := segments.filterMap paramNameOf
  (compiled, paramNames)

mutual

/-- Match compiled pattern segments against path segments, returning the
capture-group values in order (`none` = no match). -/
def matchSegs : List PatSeg → List String → Option (List String)
  | [], [] => some []
  | [], _ :: _ => none
  | .lit s :: ps, segs =>
      match segs with
      | seg :: rest => if s == seg then matchSegs ps rest else none
      | [] => none
  | .capture _ :: ps, segs =>
      match segs with
      | seg :: rest =>
          if seg.length > 0 then (matchSegs ps rest).map (seg :: ·) else none
      | [] => none
  | .multi :: ps, segs => tryMulti ps segs segs.length

/-- Greedy backtracking for `(.*)`: consume `k` segments, longest first. -/
def tryMulti (ps : List PatSeg) (segs : List String) : Nat → Option (List String)
  | 0 => none
  | k + 1 =>
      match matchSegs ps (segs.drop (k + 1)) with
      | some caps => some (joinSep "/" (segs.take (k + 1)) :: caps)
      | none => tryMulti ps segs k

end

/-! ## Database state -/

/-- The content of a `StaticDocumentSnapshot` (`createStaticSnapshot`):
`none` = the document did not exist. -/
structure StaticSnap where
  path : String
  dataIfExists : Option JSVal
  deriving Repr, DecidableEq

inductive TriggerEventType where
  | create
  | update
  | delete
  deriving Repr, DecidableEq

/-- Handler presence flags of a `FirestoreTriggerHandlers` record (handler
bodies are application code outside the engine; dispatch is observed
through the invocation log). -/
structure TriggerHandlers where
  onCreate : Bool
  onUpdate : Bool
  onDelete : Bool
  deriving Repr, DecidableEq

structure TriggerRegistration where
  pattern : String
  segments : List PatSeg
  paramNames : List String
  handlers : TriggerHandlers
  deriving Repr, DecidableEq

/-- A buffered `TriggerEventRecord`. -/
structure TriggerEventRecord where
  type : TriggerEventType
  path : String
  before : StaticSnap
  after : StaticSnap
  deriving Repr, DecidableEq

/-- One observed trigger-handler invocation (the `FirestoreTriggerChange`
passed to the selected handler). -/
structure TriggerInvocation where
  pattern : String
  params : List (String × String)
  path : String
  type : TriggerEventType
  before : StaticSnap
  after : StaticSnap
  deriving Repr, DecidableEq

/-- A scheduled-but-not-yet-run microtask: the initial current-state
delivery of `addDocumentWatcher` (`queueMicrotask`) or a query (re-)
evaluation promise of `addQueryWatcher` / `runAllQueryWatchers`. -/
inductive PendingTask where
  | initialDoc (path : String) (listenerId : Nat)
  | queryEval (watcherId : Nat)
  deriving Repr, DecidableEq

/-- The full `StubFirestoreDatabase` state.  Watchers are identified by
`Nat` ids (the source keys them by callback object identity).  Buffer
stacks are modelled head-as-top (`push` = cons).  `triggerLog`,
`docDeliveryLog` and `queryDeliveryLog` record the observable callback
invocations in order. -/
@[ext]
structure DBState where
  storage : Storage
  triggerRegistrations : List TriggerRegistration
  triggerBuffers : List (List TriggerEventRecord)
  docWatchers : List (String × List Nat)
  docWatchBuffers : List (List String)
  queryWatchers : List Nat
  queryWatchBuffers : List Bool
  pendingTasks : List PendingTask
  triggerLog : List TriggerInvocation
  docDeliveryLog : List (Nat × String × Option JSVal)
  queryDeliveryLog : List Nat
  deriving Repr, DecidableEq

/-- Insertion-ordered `Set.add`. -/
def addToSet [BEq α] (l : List α) (x : α) : List α :=
  if l.contains x then l else l ++ [x]

def createStaticSnapshot (path : String) (doc : Option StoredDoc) : StaticSnap :=
  match doc with
  | some d => if d.exists_ then ⟨path, some d.data⟩ else ⟨path, none⟩
  | none => ⟨path, none⟩

/-- Positional parameter extraction of `dispatchTrigger`
(`params[name] = match[index + 1]`). -/
def extractParams (paramNames captures : List String) : List (String × String) :=
  paramNames.enum.map (fun p => (p.2, (captures.get? p.1).getD ""))

/-- One registration's worth of `dispatchTrigger`: if the compiled matcher
matches the mutated path, extract the named parameters positionally and
invoke the handler selected by the change type when one is registered. -/
def dispatchStep (event : TriggerEventRecord) (acc : DBState)
    (reg : TriggerRegistration) : DBState :=
  match matchSegs reg.segments (splitOnChar '/' event.path) with
  | none => acc
  | some captures =>
      let fire :=
        match event.type with
        | .create => reg.handlers.onCreate
        | .update => reg.handlers.onUpdate
        | .delete => reg.handlers.onDelete
      if fire then
        { acc with
          triggerLog := acc.triggerLog ++
            [⟨reg.pattern, extractParams reg.paramNames captures,
              event.path, event.type, event.before, event.after⟩] }
      else acc

/-- `StubFirestoreDatabase.dispatchTrigger`: walk registrations in order. -/
def dispatchTrigger (event : TriggerEventRecord) (db : DBState) : DBState :=
  db.triggerRegistrations.foldl (dispatchStep event) db

/-- `StubFirestoreDatabase.recordTrigger`. -/
def recordTrigger (type : TriggerEventType) (path : String)
    (beforeDoc afterDoc : Option StoredDoc) (db : DBState) : DBState :=
  if db.triggerRegistrations.isEmpty then db
  else
    let event : TriggerEventRecord :=
      ⟨type, path, createStaticSnapshot path beforeDoc, createStaticSnapshot path afterDoc⟩
    match db.triggerBuffers with
    | buf :: rest => { db with triggerBuffers := (buf ++ [event]) :: rest }
    | [] => dispatchTrigger event db

def lookupWatchersEntry : List (String × List Nat) → String → Option (List Nat)
  | [], _ => none
  | (k, ids) :: rest, path => if k == path then some ids else lookupWatchersEntry rest path

def lookupWatchers (watchers : List (String × List Nat)) (path : String) : List Nat :=
  (lookupWatchersEntry watchers path).getD []

def setWatchers : List (String × List Nat) → String → List Nat → List (String × List Nat)
  | [], path, ids => [(path, ids)]
  | (k, v) :: rest, path, ids =>
      if k == path then (k, ids) :: rest else (k, v) :: setWatchers rest path ids

def removeWatcherEntry : List (String × List Nat) → String → List (String × List Nat)
  | [], _ => []
  | (k, v) :: rest, path =>
      if k == path then rest else (k, v) :: removeWatcherEntry rest path

/-- `StubFirestoreDatabase.deliverDocumentSnapshot`: synchronous delivery
to the listeners currently subscribed at the path. -/
def deliverDocumentSnapshot (path : String) (db : DBState) : DBState :=
  let listeners := lookupWatchers db.docWatchers path
  if listeners.isEmpty then db
  else
    let snap := createStaticSnapshot path (mapGet db.storage path)
    { db with
      docDeliveryLog := db.docDeliveryLog ++
        listeners.map (fun id => (id, path, snap.dataIfExists)) }

/-- `StubFirestoreDatabase.queueDocumentNotification`. -/
def queueDocumentNotification (path : String) (db : DBState) : DBState :=
  match db.docWatchBuffers with
  | buf :: rest => { db with docWatchBuffers := addToSet buf path :: rest }
  | [] => deliverDocumentSnapshot path db

/-- `StubFirestoreDatabase.runAllQueryWatchers`: each active query watcher
gets an asynchronous re-evaluation promise (a pending task). -/
def runAllQueryWatchers (db : DBState) : DBState :=
  if db.queryWatchers.isEmpty then db
  else { db with pendingTasks := db.pendingTasks ++ db.queryWatchers.map .queryEval }

/-- `StubFirestoreDatabase.markQueryWatchersDirty`. -/
def markQueryWatchersDirty (db : DBState) : DBState :=
  if db.queryWatchers.isEmpty then db
  else
    match db.queryWatchBuffers with
    | _ :: rest => { db with queryWatchBuffers := true :: rest }
    | [] => runAllQueryWatchers db

/-- `StubFirestoreDatabase.emitDocumentChange`. -/
def emitDocumentChange (path : String) (db : DBState) : DBState :=
  markQueryWatchersDirty (queueDocumentNotification path db)

/-- `StubFirestoreDatabase.beginAtomicOperation`. -/
def beginAtomicOperation (db : DBState) : DBState :=
  { db with
    triggerBuffers := [] :: db.triggerBuffers
    docWatchBuffers := [] :: db.docWatchBuffers
    queryWatchBuffers := false :: db.queryWatchBuffers }

/-- `StubFirestoreDatabase.endAtomicOperation`: pop the three buffers; on
failure discard them; on success merge into the parent frame when nested,
otherwise flush trigger dispatches, then document deliveries, then the
query re-evaluation. -/
def endAtomicOperation (success : Bool) (db : DBState) : DBState :=
  let triggerBuffer := db.triggerBuffers.headD []
  let tRest := db.triggerBuffers.tail
  let docBuffer := db.docWatchBuffers.headD []
  let dRest := db.docWatchBuffers.tail
  let queryDirty := db.queryWatchBuffers.headD false
  let qRest := db.queryWatchBuffers.tail
  let db := { db with triggerBuffers := tRest, docWatchBuffers := dRest,
                      queryWatchBuffers := qRest }
  if !success then db
  else
    match db.triggerBuffers with
    | parent :: rest2 =>
        let db := { db with triggerBuffers := (parent ++ triggerBuffer) :: rest2 }
        let db :=
          match db.docWatchBuffers with
          | dparent :: drest2 =>
              { db with docWatchBuffers := docBuffer.foldl addToSet dparent :: drest2 }
          | [] => db
        if queryDirty then
          match db.queryWatchBuffers with
          | _ :: qrest2 => { db with queryWatchBuffers := true :: qrest2 }
          | [] => db
        else db
    | [] =>
        let db := triggerBuffer.foldl (fun acc e => dispatchTrigger e acc) db
        let db := docBuffer.foldl (fun acc p => deliverDocumentSnapshot p acc) db
        if queryDirty then runAllQueryWatchers db else db

/-- `StubFirestoreDatabase.addDocumentWatcher`: register the listener and
queue the initial current-state microtask. -/
def addDocumentWatcher (path : String) (listenerId : Nat) (db : DBState) : DBState :=
  let cur := lookupWatchers db.docWatchers path
  { db with
    docWatchers := setWatchers db.docWatchers path (addToSet cur listenerId)
    pendingTasks := db.pendingTasks ++ [.initialDoc path listenerId] }

/-- The unsubscribe closure returned by `addDocumentWatcher`. -/
def unsubscribeDocWatcher (path : String) (listenerId : Nat) (db : DBState) : DBState :=
  match lookupWatchersEntry db.docWatchers path with
  | none => db
  | some ids =>
      let ids2 := ids.erase listenerId
      if ids2.isEmpty then { db with docWatchers := removeWatcherEntry db.docWatchers path }
      else { db with docWatchers := setWatchers db.docWatchers path ids2 }

/-- `StubFirestoreDatabase.addQueryWatcher`. -/
def addQueryWatcher (watcherId : Nat) (db : DBState) : DBState :=
  { db with
    queryWatchers := addToSet db.queryWatchers watcherId
    pendingTasks := db.pendingTasks ++ [.queryEval watcherId] }

/-- The unsubscribe closure returned by `addQueryWatcher`. -/
def unsubscribeQueryWatcher (watcherId : Nat) (db : DBState) : DBState :=
  { db with queryWatchers := db.queryWatchers.erase watcherId }

/-- Run the oldest scheduled microtask.  The scheduled callbacks captured
the listener / watcher object at scheduling time, so they fire without
checking whether the watcher is still subscribed. -/
def runPendingTask (db : DBState) : DBState :=
  match db.pendingTasks with
  | [] => db
  | .initialDoc path listenerId :: rest =>
      { db with
        pendingTasks := rest
        docDeliveryLog := db.docDeliveryLog ++
          [(listenerId, path,
            (createStaticSnapshot path (mapGet db.storage path)).dataIfExists)] }
  | .queryEval watcherId :: rest =>
      { db with pendingTasks := rest
                queryDeliveryLog := db.queryDeliveryLog ++ [watcherId] }

/-! ## Document writes (`StubDocumentReference.set` / `update` / `delete`,
`StubFirestoreDatabase.seed`)

`Timestamp.now()` is threaded in as the explicit parameter `now` (the spec
leaves the instant unspecified; §9 lists cross-field synchronisation as an
open question). -/

structure SetOptions where
  merge : Bool := false
  mergeFields : Option (List String) := none
  deriving Repr, DecidableEq

/-- The merged data of the `mergeFields` branch of `set`: starting from
`{...existingDoc.data}`, each named field present in the incoming data is
resolved against the existing data and copied over. -/
def mergeFieldsData (now : JSVal) (data existingData : JSVal)
    (fields : List String) : List (String × JSVal) :=
  fields.foldl
    (fun mergedData field =>
      if data.hasKey field then
        let fieldData := JSVal.vobj [(field, data.jsIndex field)]
        let processed := processFieldValues now fieldData existingData
        objSet mergedData field (processed.jsIndex field)
      else mergedData)
    (spreadToObj existingData)

/-- The tail common to every store mutation: record the trigger event (the
after-image is re-read from the just-mutated store, as the source does with
`this.storage.get`) and notify listeners via `emitDocumentChange`. -/
def commitWrite (eventType : TriggerEventType) (path : String)
    (beforeClone : Option StoredDoc) (db2 : DBState) : DBState :=
  emitDocumentChange path
    (recordTrigger eventType path beforeClone (mapGet db2.storage path) db2)

/-- The replacement data a `set(data, options)` computes: deep merge for
`merge: true` on an existing document, field-selective merge for
`mergeFields`, and otherwise (plain set, or any set on an absent document)
`{...processFieldValues(data, {})}`. -/
def setNewData (now : JSVal) (data : JSVal) (options : Option SetOptions)
    (existingDoc : Option StoredDoc) : JSVal :=
  match options, existingDoc with
  | some opts, some existing =>
      if opts.merge then
        deepMerge existing.data (processFieldValues now data existing.data)
      else
        match opts.mergeFields with
        | some fields => .vobj (mergeFieldsData now data existing.data fields)
        | none => .vobj (spreadToObj (processFieldValues now data (.vobj [])))
  | _, _ => .vobj (spreadToObj (processFieldValues now data (.vobj [])))

/-- `StubDocumentReference.set(data, options)`. -/
def dbSet (now : JSVal) (path : String) (data : JSVal) (options : Option SetOptions)
    (db : DBState) : DBState :=
  let beforeClone := mapGet db.storage path
  let newData := setNewData now data options beforeClone
  let eventType : TriggerEventType :=
    if (beforeClone.map (·.exists_)).getD false then .update else .create
  commitWrite eventType path beforeClone
    { db with storage := mapSet db.storage path ⟨pathId path, path, newData, true⟩ }

/-- `StubDocumentReference.update(data)`.  Fails when the document does not
exist; otherwise dot-notation updates are applied and the result is run
through `processFieldValues` against the pre-update data. -/
def dbUpdate (now : JSVal) (path : String) (updates : List (String × JSVal))
    (db : DBState) : Except String DBState :=
  match mapGet db.storage path with
  | none => .error ("Document " ++ path ++ " does not exist")
  | some existingDoc =>
      if !existingDoc.exists_ then
        .error ("Document " ++ path ++ " does not exist")
      else
        let updatedData := applyDotNotationUpdates now existingDoc.data updates
        let processedData := processFieldValues now (.vobj updatedData) existingDoc.data
        .ok (commitWrite .update path (some existingDoc)
          { db with
            storage := mapSet db.storage path ⟨pathId path, path, processedData, true⟩ })

/-- `StubDocumentReference.delete()`: deleting an absent (or
non-`exists`) document is a silent no-op; a real deletion records a
`delete` trigger and notifies listeners. -/
def dbDelete (path : String) (db : DBState) : DBState :=
  match mapGet db.storage path with
  | none => { db with storage := mapDelete db.storage path }
  | some existingDoc =>
      if !existingDoc.exists_ then
        { db with storage := mapDelete db.storage path }
      else
        commitWrite .delete path (some existingDoc)
          { db with storage := mapDelete db.storage path }

/-- `StubFirestoreDatabase.seed(path, data)`: synchronous direct write of
`{...data}` (top-level copy, no sentinel resolution, no merge logic),
followed by the same `emitDocumentChange` a committed write performs —
and no `recordTrigger` call. -/
def dbSeed (path : String) (data : JSVal) (db : DBState) : DBState :=
  let parts := splitOnChar '/' path
  let id := (parts.getLast?).getD ""
  let db2 := { db with
    storage := mapSet db.storage path ⟨id, path, .vobj (spreadToObj data), true⟩ }
  emitDocumentChange path db2

/-! ## Query pipeline (`StubQuery`) -/

/-- The supported `WhereFilterOp`s (an unrecognised operator string falls
into the source's `default: return false`, not modelled as a claim needs
it). -/
inductive WhereFilterOp where
  | eq
  | ne
  | lt
  | le
  | gt
  | ge
  | arrayContains
  | inOp
  | arrayContainsAny
  | notIn
  deriving Repr, DecidableEq

structure QueryFilter where
  field : String
  operator : WhereFilterOp
  value : JSVal
  deriving Repr, DecidableEq

inductive OrderByDirection where
  | asc
  | desc
  deriving Repr, DecidableEq

structure QueryOrder where
  field : String
  direction : OrderByDirection
  deriving Repr, DecidableEq

/-- A `startAfter` cursor value: a document snapshot / reference (an object
with an `id` — the source keys on `'id' in startAfterValue`) or a literal
field value. -/
inductive SAValue where
  | snap (id : String)
  | val (v : JSVal)
  deriving Repr, DecidableEq

/-- The accumulated immutable configuration of a `StubQuery`. -/
structure QueryConfig where
  collectionPath : String
  filters : List QueryFilter := []
  orders : List QueryOrder := []
  limitCount : Option Nat := none
  offsetCount : Nat := 0
  startAfterValues : Option (List SAValue) := none
  selectedFields : Option (List String) := none
  deriving Repr, DecidableEq

/-- `StubQuery.isInCollection`: a single-segment scope is treated as a
collection-group query (the document's immediate parent segment must equal
it); a multi-segment scope requires the document path to be exactly one
segment longer and to extend it. -/
def isInCollection (q : QueryConfig) (docPath : String) : Bool :=
  let pathParts := splitOnChar '/' docPath
  let collectionParts := splitOnChar '/' q.collectionPath
  if collectionParts.length == 1 then
    if pathParts.length < 2 then false
    else (pathParts.get? (pathParts.length - 2)).getD "" == collectionParts.headD ""
  else
    if pathParts.length != collectionParts.length + 1 then false
    else List.zip pathParts collectionParts |>.all (fun p => p.1 == p.2)

/-- `StubQuery.getFieldValue` on a stored document: `__name__` reads the
document id, otherwise the dotted field path is walked through the data
with JS optional-chaining reads. -/
def getFieldValue (doc : StoredDoc) (field : String) : JSVal :=
  if field == "__name__" then .vstr doc.id
  else (splitOnChar '.' field).foldl (fun value part => value.jsIndex part) doc.data

/-- JS `a <= b` (`!(b < a)`, `false` when a side coerces to `NaN`). -/
def jsLeB (a b : JSVal) : Bool :=
  match a, b with
  | .vstr x, .vstr y => decide (x ≤ y)
  | _, _ =>
      match a.toPrimNum, b.toPrimNum with
      | some x, some y => decide (x ≤ y)
      | _, _ => false

/-- `StubQuery.matchesFilter`. -/
def matchesFilter (fieldValue : JSVal) (operator : WhereFilterOp)
    (filterValue : JSVal) : Bool :=
  match operator with
  | .eq => fieldValue.strictEq filterValue
  | .ne => !fieldValue.strictEq filterValue
  | .lt => JSVal.jsLtB fieldValue filterValue
  | .le => jsLeB fieldValue filterValue
  | .gt => JSVal.jsLtB filterValue fieldValue
  | .ge => jsLeB filterValue fieldValue
  | .arrayContains =>
      match fieldValue with
      | .varr elems => elems.any (fun v => v.sameValueZero filterValue)
      | _ => false
  | .inOp =>
      match filterValue with
      | .varr elems => elems.any (fun v => v.sameValueZero fieldValue)
      | _ => false
  | .arrayContainsAny =>
      match fieldValue, filterValue with
      | .varr fe, .varr ve => fe.any (fun v => ve.any (fun w => w.sameValueZero v))
      | _, _ => false
  | .notIn =>
      match filterValue with
      | .varr elems => !elems.any (fun v => v.sameValueZero fieldValue)
      | _ => false

/-- `StubQuery.matchesFilters`. -/
def matchesFilters (q : QueryConfig) (doc : StoredDoc) : Bool :=
  q.filters.all (fun f => matchesFilter (getFieldValue doc f.field) f.operator f.value)

/-- `StubQuery.compareDocuments`. -/
def compareDocuments (q : QueryConfig) (a b : StoredDoc) : Int :=
  go q.orders
where
  go : List QueryOrder → Int
    | [] => 0
    | order :: rest =>
        let aValue := getFieldValue a order.field
        let bValue := getFieldValue b order.field
        let comparison : Int :=
          if JSVal.jsLtB aValue bValue then -1
          else if JSVal.jsLtB bValue aValue then 1
          else 0
        if comparison != 0 then
          match order.direction with
          | .asc => comparison
          | .desc => -comparison
        else go rest

/-- Stable insertion into a sorted list: an element goes before the first
element it does not compare strictly greater than, so elements the
comparator ties keep their encounter order (JS `Array.prototype.sort` is
stable). -/
def insertSorted (cmp : α → α → Int) (x : α) : List α → List α
  | [] => [x]
  | y :: ys => if cmp x y ≤ 0 then x :: y :: ys else y :: insertSorted cmp x ys

/-- Stable sort by an `Int` comparator. -/
def sortByCmp (cmp : α → α → Int) : List α → List α
  | [] => []
  | x :: xs => insertSorted cmp x (sortByCmp cmp xs)

/-- JS `Array.prototype.findIndex` (`-1` = not found). -/
def jsFindIndex (p : α → Bool) : List α → Int
  | [] => -1
  | x :: xs =>
      if p x then 0
      else
        let r := jsFindIndex p xs
        if r < 0 then -1 else r + 1

/-- The cursor-matching predicate of `findStartAfterIndex` for a literal
field value when orderings exist: `Timestamp`s compare by components,
anything else by strict equality.  (JS `Date` values are merged into
`vtimestamp` in this model.) -/
def saFieldMatches (fieldValue cursorValue : JSVal) : Bool :=
  match fieldValue, cursorValue with
  | .vtimestamp s1 n1, .vtimestamp s2 n2 => s1 == s2 && n1 == n2
  | a, b => a.strictEq b

/-- `StubQuery.findStartAfterIndex` (only ever called with a non-empty
`startAfterValues`; defensively `-1` otherwise). -/
def findStartAfterIndex (q : QueryConfig) (documents : List StoredDoc) : Int :=
  match q.startAfterValues with
  | some (sav :: _) =>
      match sav with
      | .snap theId => jsFindIndex (fun doc => doc.id == theId) documents
      | .val v =>
          match q.orders with
          | order :: _ =>
              jsFindIndex (fun doc => saFieldMatches (getFieldValue doc order.field) v)
                documents
          | [] =>
              jsFindIndex
                (fun doc => match v with | .vstr s => doc.id == s | _ => false)
                documents
  | _ => -1

/-- `StubQuery.count()`: the six-stage pipeline — scope filter, predicate
filters, sort when orderings exist, start-after slice, offset slice, limit
slice — returning only the cardinality. -/
def queryCount (q : QueryConfig) (storage : Storage) : Nat :=
  let documents := ((storage : List (String × StoredDoc)).filter
    (fun p => isInCollection q p.1 && p.2.exists_)).map (·.2)
  let documents := documents.filter (matchesFilters q)
  let documents :=
    if q.orders.length > 0 then sortByCmp (compareDocuments q) documents
    else documents
  let documents :=
    match q.startAfterValues with
    | some (_ :: _) =>
        let startAfterIndex := findStartAfterIndex q documents
        if startAfterIndex ≥ 0 then documents.drop (startAfterIndex.toNat + 1)
        else documents
    | _ => documents
  let documents :=
    if q.offsetCount > 0 then documents.drop q.offsetCount else documents
  let documents :=
    match q.limitCount with
    | some l => documents.take l
    | none => documents
  documents.length

/-- `StubQuery.get()`: the identical six-stage pipeline, materialising the
matched documents (in the stub a snapshot wraps the stored document, so the
result is modelled as the document list). -/
def queryGet (q : QueryConfig) (storage : Storage) : List StoredDoc :=
  let documents := ((storage : List (String × StoredDoc)).filter
    (fun p => isInCollection q p.1 && p.2.exists_)).map (·.2)
  let documents := documents.filter (matchesFilters q)
  let documents :=
    if q.orders.length > 0 then sortByCmp (compareDocuments q) documents
    else documents
  let documents :=
    match q.startAfterValues with
    | some (_ :: _) =>
        let startAfterIndex := findStartAfterIndex q documents
        if startAfterIndex ≥ 0 then documents.drop (startAfterIndex.toNat + 1)
        else documents
    | _ => documents
  let documents :=
    if q.offsetCount > 0 then documents.drop q.offsetCount else documents
  let documents :=
    match q.limitCount with
    | some l => documents.take l
    | none => documents
  documents

/-! ## Transactions (`StubTransaction`) and write batches (`StubWriteBatch`) -/

/-- A queued transactional write (`StubTransaction.writes` entry). -/
inductive TxWrite where
  | set (path : String) (data : JSVal) (options : Option SetOptions)
  | update (path : String) (updates : List (String × JSVal))
  | delete (path : String)
  | create (path : String) (data : JSVal)
  deriving Repr, DecidableEq

/-- `StubTransaction` private state: the read-set `Map` (path → document
state captured by `transaction.get`) and the queued writes in call order. -/
structure TxState where
  reads : List (String × Option StoredDoc) := []
  writes : List TxWrite := []
  deriving Repr, DecidableEq

/-- JS `Map.set` on the read-set: overwrite in place or append. -/
def readsSet : List (String × Option StoredDoc) → String → Option StoredDoc →
    List (String × Option StoredDoc)
  | [], path, doc => [(path, doc)]
  | (k, d) :: rest, path, doc =>
      if k == path then (k, doc) :: rest else (k, d) :: readsSet rest path doc

/-- `StubTransaction.get(documentRef)`: reads the current document and
(re)records it in the read-set (`this.reads.set(path, doc ?? null)`).  The
snapshot handed to the caller is the same current document. -/
def txGet (path : String) (tx : TxState) (db : DBState) : TxState × Option StoredDoc :=
  let doc := mapGet db.storage path
  ({ tx with reads := readsSet tx.reads path doc }, doc)

/-- Commit-time validation: every path in the read-set must stringify
identically to its current stored state (`JSON.stringify(readDoc) !==
JSON.stringify(currentDoc ?? null)` — structural equality in the model). -/
def validateReads : List (String × Option StoredDoc) → Storage → Option String
  | [], _ => none
  | (path, readDoc) :: rest, storage =>
      if readDoc ≠ mapGet storage path then
        some ("Transaction failed: document " ++ path ++ " was modified")
      else validateReads rest storage

/-- Replay one queued transactional write against the store.  `create`
validates at apply time that the document does not yet exist. -/
def applyTxWrite (now : JSVal) (w : TxWrite) (db : DBState) : Except String DBState :=
  match w with
  | .set path data options => .ok (dbSet now path data options db)
  | .update path updates => dbUpdate now path updates db
  | .delete path => .ok (dbDelete path db)
  | .create path data =>
      let existing := mapGet db.storage path
      if (existing.map (·.exists_)).getD false then
        .error ("Document " ++ path ++ " already exists")
      else .ok (dbSet now path data none db)

/-- Replay queued writes in order, stopping at the first failure (the
returned state is the state at that moment — the source performs no
rollback). -/
def applyTxWrites (now : JSVal) : List TxWrite → DBState → Option String × DBState
  | [], db => (none, db)
  | w :: rest, db =>
      match applyTxWrite now w db with
      | .ok db2 => applyTxWrites now rest db2
      | .error e => (some e, db)

/-- `StubTransaction.commit`: open an atomic frame, validate the read-set,
replay the queued writes, and close the frame with `success` reflecting
whether everything succeeded (the `try`/`finally` of the source).
`beginAtomicOperation` does not touch the store, so validation compares
against `db0.storage` directly. -/
def txCommit (now : JSVal) (tx : TxState) (db0 : DBState) :
    Except String Unit × DBState :=
  match validateReads tx.reads db0.storage with
  | some e => (.error e, endAtomicOperation false (beginAtomicOperation db0))
  | none =>
      match applyTxWrites now tx.writes (beginAtomicOperation db0) with
      | (some e, db2) => (.error e, endAtomicOperation false db2)
      | (none, db2) => (.ok (), endAtomicOperation true db2)

/-- One step of a transaction body: a transactional read or a queued
write. -/
inductive TxAction where
  | aGet (path : String)
  | aSet (path : String) (data : JSVal) (options : Option SetOptions)
  | aUpdate (path : String) (updates : List (String × JSVal))
  | aDelete (path : String)
  | aCreate (path : String) (data : JSVal)
  deriving Repr, DecidableEq

/-- A transaction body (`updateFunction`) that interacts with the store
through the transaction object: a sequence of transaction calls followed by
a normal return (`throws = none`) or a thrown error (`throws = some e`). -/
structure TxBody where
  actions : List TxAction
  throws : Option String := none
  deriving Repr, DecidableEq

/-- Run the body's transaction calls.  Reads record baselines; writes only
queue — the database state is untouched until commit. -/
def execTxActions (db : DBState) : List TxAction → TxState → TxState
  | [], tx => tx
  | .aGet path :: rest, tx => execTxActions db rest (txGet path tx db).1
  | .aSet path data opts :: rest, tx =>
      execTxActions db rest { tx with writes := tx.writes ++ [.set path data opts] }
  | .aUpdate path updates :: rest, tx =>
      execTxActions db rest { tx with writes := tx.writes ++ [.update path updates] }
  | .aDelete path :: rest, tx =>
      execTxActions db rest { tx with writes := tx.writes ++ [.delete path] }
  | .aCreate path data :: rest, tx =>
      execTxActions db rest { tx with writes := tx.writes ++ [.create path data] }

/-- `StubFirestoreDatabase.runTransaction`: run the body, then commit.  A
thrown body error propagates before `commit()` is ever called. -/
def runTransaction (now : JSVal) (body : TxBody) (db : DBState) :
    Except String Unit × DBState :=
  match body.throws with
  | some e => (.error e, db)
  | none => txCommit now (execTxActions db body.actions {}) db

/-- A queued batch operation (`StubWriteBatch.operations` entry). -/
inductive BatchOp where
  | bset (path : String) (data : JSVal) (options : Option SetOptions)
  | bupdate (path : String) (updates : List (String × JSVal))
  | bdelete (path : String)
  deriving Repr, DecidableEq

def applyBatchOp (now : JSVal) (op : BatchOp) (db : DBState) : Except String DBState :=
  match op with
  | .bset path data options => .ok (dbSet now path data options db)
  | .bupdate path updates => dbUpdate now path updates db
  | .bdelete path => .ok (dbDelete path db)

/-- Execute queued batch operations in order until the first failure. -/
def applyBatchOps (now : JSVal) : List BatchOp → DBState → Option String × DBState
  | [], db => (none, db)
  | op :: rest, db =>
      match applyBatchOp now op db with
      | .ok db2 => applyBatchOps now rest db2
      | .error e => (some e, db)

/-- `StubWriteBatch.commit`: same atomic-frame discipline as a transaction,
without a validation phase. -/
def batchCommit (now : JSVal) (ops : List BatchOp) (db0 : DBState) :
    Except String Unit × DBState :=
  match applyBatchOps now ops (beginAtomicOperation db0) with
  | (some e, db2) => (.error e, endAtomicOperation false db2)
  | (none, db2) => (.ok (), endAtomicOperation true db2)

/-! ## Reference-semantics model for snapshot aliasing (claim about
`StubDocumentSnapshot.data`)

Whether `data()` hands back a defensive clone is a statement about object
identity, invisible in the pure value model.  This section models the JS
heap explicitly for the relevant code path: a plain (non-merge) `set` on a
fresh document (which stores `{...processFieldValues(data, {})}` — fresh
object allocations), `StubDocumentReference.get` (which wraps the stored
document itself), and `StubDocumentSnapshot.data` (which returns
`this.document.data` — the stored reference, with no `cloneValue` call;
contrast `StaticDocumentSnapshot.data`, which clones). -/

/-- A heap value: a primitive, or a reference to a heap object. -/
inductive HVal where
  | hnum (n : Int)
  | hstr (s : String)
  | hbool (b : Bool)
  | hnull
  | href (addr : Nat)
  deriving Repr, DecidableEq

/-- The JS object heap (plain objects only — all the claim needs). -/
structure Heap where
  next : Nat
  objs : List (Nat × List (String × HVal))
  deriving Repr, DecidableEq

def emptyHeap : Heap := ⟨0, []⟩

/-- Allocate a fresh object. -/
def allocObj (h : Heap) (fields : List (String × HVal)) : Heap × HVal :=
  (⟨h.next + 1, h.objs ++ [(h.next, fields)]⟩, .href h.next)

def heapObjFind : List (Nat × List (String × HVal)) → Nat → Option (List (String × HVal))
  | [], _ => none
  | (a, fields) :: rest, addr =>
      if a == addr then some fields else heapObjFind rest addr

def heapObj (h : Heap) (addr : Nat) : List (String × HVal) :=
  (heapObjFind h.objs addr).getD []

def hobjSet : List (String × HVal) → String → HVal → List (String × HVal)
  | [], key, v => [(key, v)]
  | (k, w) :: rest, key, v =>
      if k == key then (k, v) :: rest else (k, w) :: hobjSet rest key v

/-- A user-code mutation `obj[key] = v` through a reference. -/
def heapSetField (h : Heap) (addr : Nat) (key : String) (v : HVal) : Heap :=
  { h with objs := h.objs.map (fun p => if p.1 == addr then (p.1, hobjSet p.2 key v) else p) }

mutual

/-- `processFieldValues(data, {})` on the heap for sentinel-free data:
`{...data}` plus recursive processing of plain-object field values — fresh
allocations all the way down (fuel-driven; data graphs are finite trees in
practice, so any fuel past the nesting depth gives the source's
behaviour). -/
def hProcessCopy : Nat → Heap → HVal → Heap × HVal
  | 0, h, v => (h, v)
  | fuel + 1, h, v =>
      match v with
      | .href a =>
          let (h2, fields2) := hProcessFields fuel h (heapObj h a)
          allocObj h2 fields2
      | v => (h, v)

def hProcessFields : Nat → Heap → List (String × HVal) → Heap × List (String × HVal)
  | 0, h, _ => (h, [])
  | _ + 1, h, [] => (h, [])
  | fuel + 1, h, (k, v) :: rest =>
      let (h2, v2) :=
        match v with
        | .href a => hProcessCopy fuel h (.href a)
        | v => (h, v)
      let (h3, rest2) := hProcessFields fuel h2 rest
      (h3, (k, v2) :: rest2)

end

/-- The stored document of the heap model; `dataRef` is the reference the
store holds. -/
structure HDoc where
  id : String
  path : String
  dataRef : HVal
  exists_ : Bool
  deriving Repr, DecidableEq

structure HStore where
  heap : Heap
  storage : List (String × HDoc)
  deriving Repr, DecidableEq

def hstoreSet : List (String × HDoc) → String → HDoc → List (String × HDoc)
  | [], path, doc => [(path, doc)]
  | (k, d) :: rest, path, doc =>
      if k == path then (k, doc) :: rest else (k, d) :: hstoreSet rest path doc

def hstoreGet : List (String × HDoc) → String → Option HDoc
  | [], _ => none
  | (k, d) :: rest, path => if k == path then some d else hstoreGet rest path

/-- Plain non-merge `set` on a fresh document in the heap model: store
`{...processedData}` (the final spread is one more fresh allocation whose
field values are shared with the processed copy). -/
def hset (fuel : Nat) (path : String) (data : HVal) (st : HStore) : HStore :=
  let (h1, processed) := hProcessCopy fuel st.heap data
  let (h2, top) :=
    match processed with
    | .href a => allocObj h1 (heapObj h1 a)
    | _ => allocObj h1 []
  { heap := h2
    storage := hstoreSet st.storage path ⟨pathId path, path, top, true⟩ }

/-- `StubDocumentReference.get()` wraps the stored document itself;
`StubDocumentSnapshot.data()` returns `this.document.data` — the stored
reference, unclonied. -/
def hSnapshotData (doc : Option HDoc) : Option HVal :=
  match doc with
  | some d => if d.exists_ then some d.dataRef else none
  | none => none

mutual

/-- Read a heap value back as a pure value tree (what an observer sees when
inspecting the object returned by `data()`). -/
def hResolve : Nat → Heap → HVal → JSVal
  | 0, _, _ => .vundef
  | fuel + 1, h, .href a => .vobj (hResolveFields fuel h (heapObj h a))
  | _ + 1, _, .hnum n => .vnum n
  | _ + 1, _, .hstr s => .vstr s
  | _ + 1, _, .hbool b => .vbool b
  | _ + 1, _, .hnull => .vnull

def hResolveFields : Nat → Heap → List (String × HVal) → List (String × JSVal)
  | 0, _, _ => []
  | _ + 1, _, [] => []
  | fuel + 1, h, (k, v) :: rest =>
      (k, hResolve fuel h v) :: hResolveFields fuel h rest

end

/-! ## Infrastructure lemmas -/

theorem mapGet_mapSet_self (st : Storage) (path : String) (doc : StoredDoc) :
    mapGet (mapSet st path doc) path = some doc := by
  induction st with
  | nil => simp [mapSet, mapGet]
  | cons kv rest ih =>
      obtain ⟨k, d⟩ := kv
      by_cases h : k == path
      · simp [mapSet, h, mapGet]
      · simp [mapSet, h, mapGet, ih]

theorem objFind_objSet_self (l : List (String × JSVal)) (key : String) (v : JSVal) :
    JSVal.objFind (objSet l key v) key = some v := by
  induction l with
  | nil => simp [objSet, JSVal.objFind]
  | cons kv rest ih =>
      obtain ⟨k, w⟩ := kv
      by_cases h : k == key
      · simp [objSet, h, JSVal.objFind]
      · simp [objSet, h, JSVal.objFind, ih]

theorem readsGet_readsSet_self (l : List (String × Option StoredDoc)) (path : String)
    (doc : Option StoredDoc) :
    (match readsSet l path doc |>.find? (fun p => p.1 == path) with
      | some (_, d) => some d
      | none => none) = some doc := by
  induction l with
  | nil => simp [readsSet]
  | cons kv rest ih =>
      obtain ⟨k, d⟩ := kv
      by_cases h : k == path
      · simp [readsSet, h]
      · simp [readsSet, h, List.find?]
        simpa [h] using ih

/-- What was captured in the read-set for a path, `none` when never read. -/
def readsGet (l : List (String × Option StoredDoc)) (path : String) :
    Option (Option StoredDoc) :=
  match l.find? (fun p => p.1 == path) with
  | some (_, d) => some d
  | none => none

/-- All the state components a failed atomic frame must leave untouched:
everything except the store itself and the frame heads. -/
structure FramePres (db db2 : DBState) : Prop where
  regs : db2.triggerRegistrations = db.triggerRegistrations
  dwatch : db2.docWatchers = db.docWatchers
  qwatch : db2.queryWatchers = db.queryWatchers
  tasks : db2.pendingTasks = db.pendingTasks
  tlog : db2.triggerLog = db.triggerLog
  dlog : db2.docDeliveryLog = db.docDeliveryLog
  qlog : db2.queryDeliveryLog = db.queryDeliveryLog
  tbuf : db2.triggerBuffers.tail = db.triggerBuffers.tail
  dbuf : db2.docWatchBuffers.tail = db.docWatchBuffers.tail
  qbuf : db2.queryWatchBuffers.tail = db.queryWatchBuffers.tail
  tne : db.triggerBuffers ≠ [] → db2.triggerBuffers ≠ []
  dne : db.docWatchBuffers ≠ [] → db2.docWatchBuffers ≠ []
  qne : db.queryWatchBuffers ≠ [] → db2.queryWatchBuffers ≠ []

/-- An open atomic frame exists on every buffer stack. -/
def FrameOpen (db : DBState) : Prop :=
  db.triggerBuffers ≠ [] ∧ db.docWatchBuffers ≠ [] ∧ db.queryWatchBuffers ≠ []

theorem framePresRfl (db : DBState) : FramePres db db :=
  ⟨rfl, rfl, rfl, rfl, rfl, rfl, rfl, rfl, rfl, rfl, id, id, id⟩

theorem FramePres.comp {a b c : DBState} (h1 : FramePres a b) (h2 : FramePres b c) :
    FramePres a c := by
  refine ⟨?_, ?_, ?_, ?_, ?_, ?_, ?_, ?_, ?_, ?_, ?_, ?_, ?_⟩ <;>
    first
      | (rw [h2.regs, h1.regs])
      | (rw [h2.dwatch, h1.dwatch])
      | (rw [h2.qwatch, h1.qwatch])
      | (rw [h2.tasks, h1.tasks])
      | (rw [h2.tlog, h1.tlog])
      | (rw [h2.dlog, h1.dlog])
      | (rw [h2.qlog, h1.qlog])
      | (rw [h2.tbuf, h1.tbuf])
      | (rw [h2.dbuf, h1.dbuf])
      | (rw [h2.qbuf, h1.qbuf])
      | (exact fun h => h2.tne (h1.tne h))
      | (exact fun h => h2.dne (h1.dne h))
      | (exact fun h => h2.qne (h1.qne h))

theorem FrameOpen.mono {a b : DBState} (ho : FrameOpen a) (hp : FramePres a b) :
    FrameOpen b :=
  ⟨hp.tne ho.1, hp.dne ho.2.1, hp.qne ho.2.2⟩

theorem recordTrigger_framePres (t : TriggerEventType) (p : String)
    (bd ad : Option StoredDoc) (db : DBState) (h : db.triggerBuffers ≠ []) :
    FramePres db (recordTrigger t p bd ad db) := by
  by_cases hreg : db.triggerRegistrations.isEmpty
  · simpa [recordTrigger, hreg] using framePresRfl db
  · cases htb : db.triggerBuffers with
    | nil => exact absurd htb h
    | cons b rest =>
        constructor <;> simp [recordTrigger, hreg, htb]

/-- One dispatch step appends at most one invocation to the trigger log. -/
theorem dispatchStep_shape (e : TriggerEventRecord) (acc : DBState)
    (reg : TriggerRegistration) :
    ∃ L, dispatchStep e acc reg = { acc with triggerLog := acc.triggerLog ++ L } := by
  unfold dispatchStep
  rcases matchSegs reg.segments (splitOnChar '/' e.path) with _ | caps
  · exact ⟨[], by simp⟩
  · cases hfire : (match e.type with
      | .create => reg.handlers.onCreate
      | .update => reg.handlers.onUpdate
      | .delete => reg.handlers.onDelete) with
    | false => exact ⟨[], by simp [hfire]⟩
    | true =>
        exact ⟨[⟨reg.pattern, extractParams reg.paramNames caps,
          e.path, e.type, e.before, e.after⟩], by simp [hfire]⟩

/-- `dispatchTrigger` only appends handler invocations to the trigger
log. -/
theorem dispatchTrigger_shape (e : TriggerEventRecord) (db : DBState) :
    ∃ L, dispatchTrigger e db = { db with triggerLog := db.triggerLog ++ L } := by
  unfold dispatchTrigger
  have key : ∀ (regs : List TriggerRegistration) (acc : DBState),
      ∃ L, regs.foldl (dispatchStep e) acc = { acc with triggerLog := acc.triggerLog ++ L } := by
    intro regs
    induction regs with
    | nil => intro acc; exact ⟨[], by simp⟩
    | cons reg rest ih =>
        intro acc
        simp only [List.foldl_cons]
        obtain ⟨L1, h1⟩ := dispatchStep_shape e acc reg
        obtain ⟨L2, h2⟩ := ih (dispatchStep e acc reg)
        refine ⟨L1 ++ L2, ?_⟩
        rw [h2, h1]
        simp
  exact key db.triggerRegistrations db

theorem recordTrigger_shape (t : TriggerEventType) (p : String)
    (bd ad : Option StoredDoc) (db : DBState) :
    ∃ L tb, recordTrigger t p bd ad db =
      { db with triggerLog := db.triggerLog ++ L, triggerBuffers := tb } := by
  by_cases hreg : db.triggerRegistrations.isEmpty
  · exact ⟨[], db.triggerBuffers, by simp [recordTrigger, hreg]⟩
  · cases htb : db.triggerBuffers with
    | nil =>
        obtain ⟨L, hL⟩ := dispatchTrigger_shape
          ⟨t, p, createStaticSnapshot p bd, createStaticSnapshot p ad⟩ db
        refine ⟨L, db.triggerBuffers, ?_⟩
        simpa [recordTrigger, hreg, htb] using hL
    | cons b rest =>
        exact ⟨[], (b ++ [⟨t, p, createStaticSnapshot p bd, createStaticSnapshot p ad⟩]) :: rest,
          by simp [recordTrigger, hreg, htb]⟩

/-- `deliverDocumentSnapshot` only appends to the document delivery log. -/
theorem deliverDocumentSnapshot_shape (p : String) (db : DBState) :
    ∃ D, deliverDocumentSnapshot p db =
      { db with docDeliveryLog := db.docDeliveryLog ++ D } := by
  unfold deliverDocumentSnapshot
  by_cases h : (lookupWatchers db.docWatchers p).isEmpty
  · exact ⟨[], by simp [h]⟩
  · exact ⟨(lookupWatchers db.docWatchers p).map
      (fun id => (id, p, (createStaticSnapshot p (mapGet db.storage p)).dataIfExists)),
      by simp [h]⟩

theorem queueDocumentNotification_shape (p : String) (db : DBState) :
    ∃ D wb, queueDocumentNotification p db =
      { db with docDeliveryLog := db.docDeliveryLog ++ D, docWatchBuffers := wb } := by
  unfold queueDocumentNotification
  cases hw : db.docWatchBuffers with
  | nil =>
      obtain ⟨D, hD⟩ := deliverDocumentSnapshot_shape p db
      exact ⟨D, db.docWatchBuffers, by simpa [hw] using hD⟩
  | cons buf rest => exact ⟨[], addToSet buf p :: rest, by simp [hw]⟩

theorem runAllQueryWatchers_shape (db : DBState) :
    ∃ ts, runAllQueryWatchers db = { db with pendingTasks := db.pendingTasks ++ ts } := by
  unfold runAllQueryWatchers
  by_cases h : db.queryWatchers.isEmpty
  · exact ⟨[], by simp [h]⟩
  · exact ⟨db.queryWatchers.map .queryEval, by simp [h]⟩

theorem markQueryWatchersDirty_shape (db : DBState) :
    ∃ ts qb, markQueryWatchersDirty db =
      { db with pendingTasks := db.pendingTasks ++ ts, queryWatchBuffers := qb } := by
  unfold markQueryWatchersDirty
  by_cases h : db.queryWatchers.isEmpty
  · exact ⟨[], db.queryWatchBuffers, by simp [h]⟩
  · cases hq : db.queryWatchBuffers with
    | nil =>
        obtain ⟨ts, hts⟩ := runAllQueryWatchers_shape db
        exact ⟨ts, db.queryWatchBuffers, by simpa [h, hq] using hts⟩
    | cons b rest => exact ⟨[], true :: rest, by simp [h, hq]⟩

theorem emitDocumentChange_shape (p : String) (db : DBState) :
    ∃ D wb ts qb, emitDocumentChange p db =
      { db with docDeliveryLog := db.docDeliveryLog ++ D, docWatchBuffers := wb,
                pendingTasks := db.pendingTasks ++ ts, queryWatchBuffers := qb } := by
  unfold emitDocumentChange
  obtain ⟨D, wb, h1⟩ := queueDocumentNotification_shape p db
  obtain ⟨ts, qb, h2⟩ := markQueryWatchersDirty_shape (queueDocumentNotification p db)
  exact ⟨D, wb, ts, qb, by rw [h2, h1]⟩

/-- `commitWrite` touches only the trigger log/buffer, the document
delivery log/buffer, the pending-task queue and the query-dirty buffer —
never the store it is handed, the watcher registries, the query delivery
log or anything below the frame heads. -/
theorem commitWrite_shape (et : TriggerEventType) (p : String)
    (bd : Option StoredDoc) (db2 : DBState) :
    ∃ L tb D wb ts qb, commitWrite et p bd db2 =
      { db2 with triggerLog := db2.triggerLog ++ L, triggerBuffers := tb,
                 docDeliveryLog := db2.docDeliveryLog ++ D, docWatchBuffers := wb,
                 pendingTasks := db2.pendingTasks ++ ts, queryWatchBuffers := qb } := by
  unfold commitWrite
  obtain ⟨L, tb, h1⟩ := recordTrigger_shape et p bd (mapGet db2.storage p) db2
  obtain ⟨D, wb, ts, qb, h2⟩ :=
    emitDocumentChange_shape p (recordTrigger et p bd (mapGet db2.storage p) db2)
  exact ⟨L, tb, D, wb, ts, qb, by rw [h2, h1]⟩

/-- A `set` writes the new document and then behaves as `commitWrite`. -/
theorem dbSet_shape (now : JSVal) (p : String) (data : JSVal)
    (opts : Option SetOptions) (db : DBState) :
    ∃ L tb D wb ts qb, dbSet now p data opts db =
      { db with
        storage := (mapSet db.storage p
          ⟨pathId p, p, setNewData now data opts (mapGet db.storage p), true⟩),
        triggerLog := db.triggerLog ++ L, triggerBuffers := tb,
        docDeliveryLog := db.docDeliveryLog ++ D, docWatchBuffers := wb,
        pendingTasks := db.pendingTasks ++ ts, queryWatchBuffers := qb } := by
  unfold dbSet
  obtain ⟨L, tb, D, wb, ts, qb, h⟩ := commitWrite_shape
    (if ((mapGet db.storage p).map (·.exists_)).getD false then .update else .create) p
    (mapGet db.storage p)
    { db with storage := (mapSet db.storage p
        ⟨pathId p, p, setNewData now data opts (mapGet db.storage p), true⟩) }
  exact ⟨L, tb, D, wb, ts, qb, h⟩

/-- A successful `update` writes the processed document and then behaves as
`commitWrite`; a failed `update` leaves the state untouched (the error is
raised before any mutation). -/
theorem dbUpdate_shape (now : JSVal) (p : String) (updates : List (String × JSVal))
    (db : DBState) :
    (∃ e, dbUpdate now p updates db = .error e) ∨
    (∃ doc L tb D wb ts qb,
      mapGet db.storage p = some doc ∧ doc.exists_ = true ∧
      dbUpdate now p updates db = .ok
        { db with
          storage := (mapSet db.storage p
            ⟨pathId p, p,
              processFieldValues now
                (.vobj (applyDotNotationUpdates now doc.data updates)) doc.data,
              true⟩),
          triggerLog := db.triggerLog ++ L, triggerBuffers := tb,
          docDeliveryLog := db.docDeliveryLog ++ D, docWatchBuffers := wb,
          pendingTasks := db.pendingTasks ++ ts, queryWatchBuffers := qb }) := by
  unfold dbUpdate
  cases hdoc : mapGet db.storage p with
  | none => exact .inl ⟨_, rfl⟩
  | some doc =>
      by_cases hex : doc.exists_
      · right
        obtain ⟨L, tb, D, wb, ts, qb, h⟩ := commitWrite_shape .update p (some doc)
          { db with storage := (mapSet db.storage p
              ⟨pathId p, p,
                processFieldValues now
                  (.vobj (applyDotNotationUpdates now doc.data updates)) doc.data,
                true⟩) }
        refine ⟨doc, L, tb, D, wb, ts, qb, rfl, hex, ?_⟩
        simp only [hex, Bool.not_true, Bool.false_eq_true, if_false]
        exact congrArg Except.ok h
      · exact .inl ⟨"Document " ++ p ++ " does not exist", by simp [hex]⟩

/-- A real `delete` removes the document and then behaves as `commitWrite`;
deleting an absent document only performs the (no-op) map removal. -/
theorem dbDelete_shape (p : String) (db : DBState) :
    (dbDelete p db = { db with storage := mapDelete db.storage p }) ∨
    (∃ doc L tb D wb ts qb,
      mapGet db.storage p = some doc ∧ doc.exists_ = true ∧
      dbDelete p db =
        { db with
          storage := mapDelete db.storage p,
          triggerLog := db.triggerLog ++ L, triggerBuffers := tb,
          docDeliveryLog := db.docDeliveryLog ++ D, docWatchBuffers := wb,
          pendingTasks := db.pendingTasks ++ ts, queryWatchBuffers := qb }) := by
  unfold dbDelete
  cases hdoc : mapGet db.storage p with
  | none => exact .inl rfl
  | some doc =>
      by_cases hex : doc.exists_
      · right
        obtain ⟨L, tb, D, wb, ts, qb, h⟩ := commitWrite_shape .delete p (some doc)
          { db with storage := mapDelete db.storage p }
        refine ⟨doc, L, tb, D, wb, ts, qb, rfl, hex, ?_⟩
        simp only [hex, Bool.not_true, Bool.false_eq_true, if_false]
        exact h
      · left; simp [hex]

theorem queueDocumentNotification_framePres (p : String) (db : DBState)
    (h : db.docWatchBuffers ≠ []) :
    FramePres db (queueDocumentNotification p db) := by
  cases hw : db.docWatchBuffers with
  | nil => exact absurd hw h
  | cons buf rest => constructor <;> simp [queueDocumentNotification, hw]

theorem markQueryWatchersDirty_framePres (db : DBState)
    (h : db.queryWatchBuffers ≠ []) :
    FramePres db (markQueryWatchersDirty db) := by
  by_cases hq : db.queryWatchers.isEmpty
  · simpa [markQueryWatchersDirty, hq] using framePresRfl db
  · cases hw : db.queryWatchBuffers with
    | nil => exact absurd hw h
    | cons buf rest => constructor <;> simp [markQueryWatchersDirty, hq, hw]

theorem emitDocumentChange_framePres (p : String) (db : DBState)
    (h1 : db.docWatchBuffers ≠ []) (h2 : db.queryWatchBuffers ≠ []) :
    FramePres db (emitDocumentChange p db) := by
  have hq := queueDocumentNotification_framePres p db h1
  exact hq.comp (markQueryWatchersDirty_framePres _ (hq.qne h2))

theorem commitWrite_framePres (et : TriggerEventType) (p : String)
    (bd : Option StoredDoc) (db2 : DBState) (ho : FrameOpen db2) :
    FramePres db2 (commitWrite et p bd db2) := by
  have hr := recordTrigger_framePres et p bd (mapGet db2.storage p) db2 ho.1
  exact hr.comp (emitDocumentChange_framePres p _ (hr.dne ho.2.1) (hr.qne ho.2.2))

/-- Any `dbSet` inside an open atomic frame leaves all observables and the
frame tails untouched. -/
theorem dbSet_framePres (now : JSVal) (p : String) (data : JSVal)
    (opts : Option SetOptions) (db : DBState) (ho : FrameOpen db) :
    FramePres db (dbSet now p data opts db) := by
  unfold dbSet
  have hstep : FramePres db { db with storage := (mapSet db.storage p
      ⟨pathId p, p, setNewData now data opts (mapGet db.storage p), true⟩) } := by
    constructor <;> simp
  exact hstep.comp (commitWrite_framePres _ _ _ _ ⟨ho.1, ho.2.1, ho.2.2⟩)

theorem dbDelete_framePres (p : String) (db : DBState) (ho : FrameOpen db) :
    FramePres db (dbDelete p db) := by
  rcases dbDelete_shape p db with h | ⟨doc, L, tb, D, wb, ts, qb, hdoc, hex, h⟩
  · rw [h]; constructor <;> simp
  · unfold dbDelete
    rw [hdoc]
    have hpre : FramePres db { db with storage := mapDelete db.storage p } := by
      constructor <;> simp
    simp only [hex, Bool.not_true, Bool.false_eq_true, if_false]
    exact hpre.comp (commitWrite_framePres _ _ _ _ ⟨ho.1, ho.2.1, ho.2.2⟩)

theorem dbUpdate_framePres (now : JSVal) (p : String)
    (updates : List (String × JSVal)) (db db2 : DBState) (ho : FrameOpen db)
    (h : dbUpdate now p updates db = .ok db2) :
    FramePres db db2 := by
  unfold dbUpdate at h
  cases hdoc : mapGet db.storage p with
  | none => rw [hdoc] at h; exact absurd h (by simp)
  | some doc =>
      rw [hdoc] at h
      by_cases hex : doc.exists_
      · simp only [hex, Bool.not_true, Bool.false_eq_true, if_false] at h
        have hpre : FramePres db { db with storage := (mapSet db.storage p
            ⟨pathId p, p,
              processFieldValues now
                (.vobj (applyDotNotationUpdates now doc.data updates)) doc.data,
              true⟩) } := by
          constructor <;> simp
        have := hpre.comp (commitWrite_framePres TriggerEventType.update p (some doc) _
          ⟨ho.1, ho.2.1, ho.2.2⟩)
        simpa [← Except.ok.injEq _ db2 |>.mp h] using this
      · simp [hex] at h

theorem applyTxWrite_framePres (now : JSVal) (w : TxWrite) (db db2 : DBState)
    (ho : FrameOpen db) (h : applyTxWrite now w db = .ok db2) :
    FramePres db db2 := by
  cases w with
  | set p data options =>
      simp only [applyTxWrite, Except.ok.injEq] at h
      exact h ▸ dbSet_framePres now p data options db ho
  | update p updates =>
      simp only [applyTxWrite] at h
      exact dbUpdate_framePres now p updates db db2 ho h
  | delete p =>
      simp only [applyTxWrite, Except.ok.injEq] at h
      exact h ▸ dbDelete_framePres p db ho
  | create p data =>
      simp only [applyTxWrite] at h
      by_cases hex : ((mapGet db.storage p).map (·.exists_)).getD false
      · rw [if_pos hex] at h; exact absurd h (by simp)
      · rw [if_neg hex] at h
        simp only [Except.ok.injEq] at h
        exact h ▸ dbSet_framePres now p data none db ho

theorem applyTxWrites_framePres (now : JSVal) (ws : List TxWrite) (db : DBState)
    (ho : FrameOpen db) :
    FramePres db (applyTxWrites now ws db).2 := by
  induction ws generalizing db with
  | nil => exact framePresRfl db
  | cons w rest ih =>
      simp only [applyTxWrites]
      cases hw : applyTxWrite now w db with
      | ok db2 =>
          have h1 := applyTxWrite_framePres now w db db2 ho hw
          exact h1.comp (ih db2 (ho.mono h1))
      | error e => exact framePresRfl db

theorem applyBatchOp_framePres (now : JSVal) (op : BatchOp) (db db2 : DBState)
    (ho : FrameOpen db) (h : applyBatchOp now op db = .ok db2) :
    FramePres db db2 := by
  cases op with
  | bset p data options =>
      simp only [applyBatchOp, Except.ok.injEq] at h
      exact h ▸ dbSet_framePres now p data options db ho
  | bupdate p updates =>
      simp only [applyBatchOp] at h
      exact dbUpdate_framePres now p updates db db2 ho h
  | bdelete p =>
      simp only [applyBatchOp, Except.ok.injEq] at h
      exact h ▸ dbDelete_framePres p db ho

theorem applyBatchOps_framePres (now : JSVal) (ops : List BatchOp) (db : DBState)
    (ho : FrameOpen db) :
    FramePres db (applyBatchOps now ops db).2 := by
  induction ops generalizing db with
  | nil => exact framePresRfl db
  | cons op rest ih =>
      simp only [applyBatchOps]
      cases hop : applyBatchOp now op db with
      | ok db2 =>
          have h1 := applyBatchOp_framePres now op db db2 ho hop
          exact h1.comp (ih db2 (ho.mono h1))
      | error e => exact framePresRfl db

theorem beginAtomicOperation_frameOpen (db : DBState) :
    FrameOpen (beginAtomicOperation db) := by
  refine ⟨?_, ?_, ?_⟩ <;> simp [beginAtomicOperation]

/-- Popping a failed frame restores exactly the pre-`begin` state except
for the store: the buffered trigger events, dirty paths and the dirty flag
are discarded. -/
theorem endFalse_after_framePres (db db2 : DBState)
    (h : FramePres (beginAtomicOperation db) db2) :
    endAtomicOperation false db2 = { db with storage := db2.storage } := by
  have ht : db2.triggerBuffers.tail = db.triggerBuffers := by
    rw [h.tbuf]; rfl
  have hd : db2.docWatchBuffers.tail = db.docWatchBuffers := by
    rw [h.dbuf]; rfl
  have hq : db2.queryWatchBuffers.tail = db.queryWatchBuffers := by
    rw [h.qbuf]; rfl
  have hregs : db2.triggerRegistrations = db.triggerRegistrations := h.regs
  have h1 : db2.docWatchers = db.docWatchers := h.dwatch
  have h2 : db2.queryWatchers = db.queryWatchers := h.qwatch
  have h3 : db2.pendingTasks = db.pendingTasks := h.tasks
  have h4 : db2.triggerLog = db.triggerLog := h.tlog
  have h5 : db2.docDeliveryLog = db.docDeliveryLog := h.dlog
  have h6 : db2.queryDeliveryLog = db.queryDeliveryLog := h.qlog
  simp only [endAtomicOperation, Bool.not_false, if_pos]
  ext1 <;> simp [ht, hd, hq, hregs, h1, h2, h3, h4, h5, h6]

/-- Popping the frame pushed by `begin` with nothing in between restores
the state exactly. -/
theorem endFalse_begin (db : DBState) :
    endAtomicOperation false (beginAtomicOperation db) = db := by
  have := endFalse_after_framePres db (beginAtomicOperation db)
    (framePresRfl (beginAtomicOperation db))
  simpa [beginAtomicOperation] using this

/-! ## Claim C1 / C2 support -/

theorem applyBatchOps_append (now : JSVal) (l1 l2 : List BatchOp) (db : DBState) :
    applyBatchOps now (l1 ++ l2) db =
      match applyBatchOps now l1 db with
      | (none, db1) => applyBatchOps now l2 db1
      | (some e, db1) => (some e, db1) := by
  induction l1 generalizing db with
  | nil => simp [applyBatchOps]
  | cons op rest ih =>
      simp only [List.cons_append, applyBatchOps]
      cases applyBatchOp now op db with
      | ok db2 => exact ih db2
      | error e => rfl

/-- Observable commit outcome: the rejection message, `none` on success. -/
def commitError : Except String Unit → Option String
  | .ok _ => none
  | .error e => some e

instance [DecidableEq e0] [DecidableEq a0] : DecidableEq (Except e0 a0) := fun a b =>
  match a, b with
  | .ok x, .ok y => if h : x = y then .isTrue (by rw [h]) else .isFalse (by simp [h])
  | .ok _, .error _ => .isFalse (by simp)
  | .error _, .ok _ => .isFalse (by simp)
  | .error x, .error y =>
      if h : x = y then .isTrue (by rw [h]) else .isFalse (by simp [h])

/-- The empty stub database (`new StubFirestoreDatabase()`). -/
def emptyDB : DBState :=
  { storage := [], triggerRegistrations := [], triggerBuffers := [],
    docWatchers := [], docWatchBuffers := [], queryWatchers := [],
    queryWatchBuffers := [], pendingTasks := [], triggerLog := [],
    docDeliveryLog := [], queryDeliveryLog := [] }

/-- C2 (as stated) is refuted: a batch whose second operation fails (an
`update` of a non-existent document) rejects, but the first operation's
write survives in the store — not "zero partial effects". -/
theorem batchCommit_partial_effects_counterexample :
    commitError (batchCommit .vnull
        [.bset "a/b" (.vobj [("x", .vnum 1)]) none,
         .bupdate "c/d" [("y", .vnum 2)]] emptyDB).1 =
      some "Document c/d does not exist" ∧
    (batchCommit .vnull
        [.bset "a/b" (.vobj [("x", .vnum 1)]) none,
         .bupdate "c/d" [("y", .vnum 2)]] emptyDB).2.storage =
      [("a/b", ⟨"b", "a/b", .vobj [("x", .vnum 1)], true⟩)] ∧
    (batchCommit .vnull
        [.bset "a/b" (.vobj [("x", .vnum 1)]) none,
         .bupdate "c/d" [("y", .vnum 2)]] emptyDB).2.storage ≠ emptyDB.storage := by
  refine ⟨by decide, by decide, by decide⟩

/-- C2 (amended): when any queued batch operation fails during commit, the
commit rejects with that error, the operations after the failing one are
never executed (the result does not depend on them), no buffered trigger
handler is invoked, no watcher delivery or scheduling happens, and every
state component except the store itself — including both watcher
registries, all delivery logs, the pending-task queue and the three frame
stacks — is exactly as before the commit; however the operations before
the failing one remain applied to the store (no rollback). -/
theorem batchCommit_failure_semantics (now : JSVal) (ops : List BatchOp)
    (db : DBState) :
    (∀ e, (batchCommit now ops db).1 = .error e →
      { (batchCommit now ops db).2 with storage := db.storage } = db) ∧
    (∀ ops1 op ops2 db1 e,
      ops = ops1 ++ op :: ops2 →
      applyBatchOps now ops1 (beginAtomicOperation db) = (none, db1) →
      applyBatchOp now op db1 = .error e →
      batchCommit now ops db = (.error e, endAtomicOperation false db1)) := by
  constructor
  · intro e herr
    unfold batchCommit at herr ⊢
    cases hops : applyBatchOps now ops (beginAtomicOperation db) with
    | mk oe db2 =>
        rw [hops] at herr
        cases oe with
        | none => exact Except.noConfusion herr
        | some e2 =>
            simp only []
            have hpres : FramePres (beginAtomicOperation db) db2 := by
              have := applyBatchOps_framePres now ops (beginAtomicOperation db)
                (beginAtomicOperation_frameOpen db)
              rwa [hops] at this
            rw [endFalse_after_framePres db db2 hpres]
  · intro ops1 op ops2 db1 e hsplit hpre hfail
    unfold batchCommit
    rw [hsplit, applyBatchOps_append, hpre]
    simp only [applyBatchOps, hfail]

/-- Witness for `batchCommit_failure_semantics`: instantiated at the
two-operation batch whose second operation updates a missing document. -/
theorem batchCommit_failure_semantics_witness :
    { (batchCommit .vnull
        [.bset "a/b" (.vobj [("x", .vnum 1)]) none,
         .bupdate "c/d" [("y", .vnum 2)]] emptyDB).2 with storage := emptyDB.storage } =
      emptyDB ∧
    batchCommit .vnull
        [.bset "a/b" (.vobj [("x", .vnum 1)]) none,
         .bupdate "c/d" [("y", .vnum 2)]] emptyDB =
      (.error "Document c/d does not exist",
        endAtomicOperation false
          (applyBatchOps .vnull [.bset "a/b" (.vobj [("x", .vnum 1)]) none]
            (beginAtomicOperation emptyDB)).2) := by
  constructor
  · exact (batchCommit_failure_semantics .vnull
      [.bset "a/b" (.vobj [("x", .vnum 1)]) none, .bupdate "c/d" [("y", .vnum 2)]]
      emptyDB).1 "Document c/d does not exist" (by decide)
  · exact (batchCommit_failure_semantics .vnull
      [.bset "a/b" (.vobj [("x", .vnum 1)]) none, .bupdate "c/d" [("y", .vnum 2)]]
      emptyDB).2 [.bset "a/b" (.vobj [("x", .vnum 1)]) none]
      (.bupdate "c/d" [("y", .vnum 2)]) [] _ _ rfl (by decide) (by decide)

/-- C1 counterexample: a transaction whose queued writes are a `set` of a
fresh document followed by an `update` of a missing document rejects at
apply time, but the first write survives in the store — the path-to-
document map is not "exactly as it was before commit began". -/
theorem runTransaction_partial_write_counterexample :
    commitError (runTransaction .vnull
        { actions := [.aSet "a/b" (.vobj [("x", .vnum 1)]) none,
                      .aUpdate "c/d" [("y", .vnum 2)]], throws := none }
        emptyDB).1 =
      some "Document c/d does not exist" ∧
    (runTransaction .vnull
        { actions := [.aSet "a/b" (.vobj [("x", .vnum 1)]) none,
                      .aUpdate "c/d" [("y", .vnum 2)]], throws := none }
        emptyDB).2.storage =
      [("a/b", ⟨"b", "a/b", .vobj [("x", .vnum 1)], true⟩)] ∧
    (runTransaction .vnull
        { actions := [.aSet "a/b" (.vobj [("x", .vnum 1)]) none,
                      .aUpdate "c/d" [("y", .vnum 2)]], throws := none }
        emptyDB).2.storage ≠ emptyDB.storage := by
  refine ⟨by decide, by decide, by decide⟩

/-- C1 (amended): a transaction body that throws propagates its error with
the state exactly unchanged (commit is never reached); a commit-time
validation conflict rejects with the conflict error and the state exactly
unchanged; and on any rejection every state component except the store —
both watcher registries, the trigger log, both delivery logs, the
pending-task queue and the three frame stacks — is exactly as before the
call, so zero trigger handlers run and zero watcher deliveries happen or
get scheduled.  However, when a queued write fails at apply time, writes
queued before it remain applied to the store (no rollback). -/
theorem runTransaction_failure_semantics (now : JSVal) (body : TxBody)
    (db : DBState) :
    (∀ e, body.throws = some e → runTransaction now body db = (.error e, db)) ∧
    (∀ e, body.throws = none →
      validateReads (execTxActions db body.actions {}).reads db.storage = some e →
      runTransaction now body db = (.error e, db)) ∧
    (∀ e, (runTransaction now body db).1 = .error e →
      { (runTransaction now body db).2 with storage := db.storage } = db) := by
  refine ⟨?_, ?_, ?_⟩
  · intro e hth
    unfold runTransaction
    rw [hth]
  · intro e hth hval
    unfold runTransaction txCommit
    simp only [hth, hval, endFalse_begin]
  · intro e herr
    unfold runTransaction at herr ⊢
    cases hth : body.throws with
    | some e2 =>
        simp only [hth] at herr ⊢
    | none =>
        simp only [hth] at herr ⊢
        unfold txCommit at herr ⊢
        cases hval : validateReads (execTxActions db body.actions {}).reads db.storage with
        | some e2 =>
            simp only [hval, endFalse_begin] at herr ⊢
        | none =>
            simp only [hval] at herr ⊢
            cases hops : applyTxWrites now (execTxActions db body.actions {}).writes
                (beginAtomicOperation db) with
            | mk oe db2 =>
                rw [hops] at herr
                cases oe with
                | none => exact Except.noConfusion herr
                | some e2 =>
                    simp only []
                    have hpres : FramePres (beginAtomicOperation db) db2 := by
                      have := applyTxWrites_framePres now
                        (execTxActions db body.actions {}).writes
                        (beginAtomicOperation db) (beginAtomicOperation_frameOpen db)
                      rwa [hops] at this
                    rw [endFalse_after_framePres db db2 hpres]

/-- Witness for `runTransaction_failure_semantics`: a thrown body error
propagates unchanged from `emptyDB`; a transaction that re-read a path
since modified conflicts and leaves the store exactly unchanged; an
apply-time failure preserves everything except the store. -/
theorem runTransaction_failure_semantics_witness :
    runTransaction .vnull { actions := [], throws := some "boom" } emptyDB =
      (.error "boom", emptyDB) ∧
    { (runTransaction .vnull
        { actions := [.aSet "a/b" (.vobj [("x", .vnum 1)]) none,
                      .aUpdate "c/d" [("y", .vnum 2)]], throws := none }
        emptyDB).2 with storage := emptyDB.storage } = emptyDB := by
  constructor
  · exact (runTransaction_failure_semantics .vnull
      { actions := [], throws := some "boom" } emptyDB).1 "boom" rfl
  · exact (runTransaction_failure_semantics .vnull
      { actions := [.aSet "a/b" (.vobj [("x", .vnum 1)]) none,
                    .aUpdate "c/d" [("y", .vnum 2)]], throws := none }
      emptyDB).2.2 "Document c/d does not exist" (by decide)

/-! ## Claim C5: transaction read baselines -/

/-- C5 counterexample: a document is read, externally modified, and read
again inside the same transaction; commit then succeeds even though the
document changed after the first read — so validation compared against the
second read's capture, not the first's. -/
theorem txGet_rebaseline_counterexample :
    commitError
      (txCommit .vnull
        ((txGet "a/b"
          ((txGet "a/b" {} (dbSet .vnull "a/b" (.vobj [("x", .vnum 1)]) none emptyDB)).1)
          (dbSet .vnull "a/b" (.vobj [("x", .vnum 2)]) none
            (dbSet .vnull "a/b" (.vobj [("x", .vnum 1)]) none emptyDB))).1)
        (dbSet .vnull "a/b" (.vobj [("x", .vnum 2)]) none
          (dbSet .vnull "a/b" (.vobj [("x", .vnum 1)]) none emptyDB))).1 = none ∧
    commitError
      (txCommit .vnull
        ((txGet "a/b" {} (dbSet .vnull "a/b" (.vobj [("x", .vnum 1)]) none emptyDB)).1)
        (dbSet .vnull "a/b" (.vobj [("x", .vnum 2)]) none
          (dbSet .vnull "a/b" (.vobj [("x", .vnum 1)]) none emptyDB))).1 =
      some "Transaction failed: document a/b was modified" := by
  refine ⟨by decide, by decide⟩

/-- C5 (amended): every `transaction.get` of a path — first or subsequent —
(re)records the document's current state as that path's baseline
(`Map.set` overwrites), so commit-time validation compares the store
against the state captured at the most recent read of each path, not the
first. -/
theorem txGet_rebaselines_to_current (path : String) (tx : TxState) (db : DBState) :
    readsGet ((txGet path tx db).1).reads path = some (mapGet db.storage path) ∧
    (txGet path tx db).2 = mapGet db.storage path := by
  refine ⟨?_, rfl⟩
  unfold txGet readsGet
  exact readsGet_readsSet_self tx.reads path (mapGet db.storage path)

/-! ## Claim C6: increment resolution -/

/-- Pointwise description of the top-level field-value pass: each field of
the incoming data is resolved against the existing value at the same
key. -/
theorem processFVNestedFields_objFind (now : JSVal) (l : List (String × JSVal))
    (ex : JSVal) (key : String) :
    JSVal.objFind (processFVNestedFields now l ex) key =
      (JSVal.objFind l key).map (fun v => processFVNestedEntry now v (ex.jsIndex key)) := by
  induction l with
  | nil => simp [processFVNestedFields, JSVal.objFind]
  | cons kv rest ih =>
      obtain ⟨k, v⟩ := kv
      by_cases h : k == key
      · have hk : k = key := by simpa using h
        simp [processFVNestedFields, JSVal.objFind, h, hk]
      · simp [processFVNestedFields, JSVal.objFind, h, ih]

/-- A single dot-free update key reduces `applyDotNotationUpdates` to one
JS assignment. -/
theorem applyDotNotationUpdates_single_nodot (now : JSVal)
    (fields : List (String × JSVal)) (key : String) (n : Int)
    (hkey : containsChar key '.' = false) :
    applyDotNotationUpdates now (.vobj fields) [(key, .sIncrement n)] =
      objSet fields key (.sIncrement n) := by
  simp [applyDotNotationUpdates, applyDotKey, hkey, spreadToObj]

/-- C6 (amended): an `update` resolving `increment(n)` at a dot-free field
stores `(existing || 0) + n` under JavaScript semantics: the fallback to
`0` applies only when the existing value is falsy (absent, `0`, `""`,
`null`, `false`, `NaN`), and a truthy non-numeric existing value goes
through JS `+` coercion (a non-empty string concatenates) instead of being
replaced by `0`. -/
theorem update_increment_semantics (now : JSVal) (path key : String) (n : Int)
    (db : DBState) (doc : StoredDoc) (fields : List (String × JSVal))
    (hdoc : mapGet db.storage path = some doc)
    (hex : doc.exists_ = true)
    (hdata : doc.data = .vobj fields)
    (hkey : containsChar key '.' = false) :
    ∃ db2, dbUpdate now path [(key, .sIncrement n)] db = .ok db2 ∧
      (mapGet db2.storage path).map (fun d => d.data.jsIndex key) =
        some (JSVal.jsAdd (JSVal.jsOr (doc.data.jsIndex key) (.vnum 0)) n) := by
  rcases dbUpdate_shape now path [(key, .sIncrement n)] db with ⟨e, herr⟩ |
    ⟨doc2, L, tb, D, wb, ts, qb, hdoc2, hex2, hok⟩
  · unfold dbUpdate at herr
    rw [hdoc] at herr
    simp [hex] at herr
  · have hdd : doc2 = doc := by rw [hdoc] at hdoc2; exact (Option.some.injEq _ _).mp hdoc2.symm
    subst hdd
    refine ⟨_, hok, ?_⟩
    rw [mapGet_mapSet_self]
    simp only [Option.map_some']
    rw [hdata, applyDotNotationUpdates_single_nodot now fields key n hkey]
    refine congrArg some ?_
    show (JSVal.vobj (processFVNestedFields now (objSet fields key (.sIncrement n))
      (.vobj fields))).jsIndex key = _
    simp only [JSVal.jsIndex, processFVNestedFields_objFind, objFind_objSet_self,
      Option.map_some']
    rfl

/-- Witness for `update_increment_semantics`: `set({count:5})` then
`update({count: increment(3)})` stores `count == 8`, incrementing an
absent field stores `n`, and an existing `"abc"` stores `"abc3"` (JS
string concatenation), not `0 + 3`. -/
theorem update_increment_semantics_witness :
    (∃ db2, dbUpdate .vnull "c/d" [("count", .sIncrement 3)]
        (dbSet .vnull "c/d" (.vobj [("count", .vnum 5)]) none emptyDB) = .ok db2 ∧
      (mapGet db2.storage "c/d").map (fun d => d.data.jsIndex "count") =
        some (JSVal.jsAdd (JSVal.jsOr (.vnum 5) (.vnum 0)) 3)) ∧
    JSVal.jsAdd (JSVal.jsOr (.vnum 5) (.vnum 0)) 3 = .vnum 8 ∧
    (∃ db2, dbUpdate .vnull "c/d" [("count", .sIncrement 7)]
        (dbSet .vnull "c/d" (.vobj [("other", .vnum 1)]) none emptyDB) = .ok db2 ∧
      (mapGet db2.storage "c/d").map (fun d => d.data.jsIndex "count") =
        some (JSVal.jsAdd (JSVal.jsOr .vundef (.vnum 0)) 7)) ∧
    JSVal.jsAdd (JSVal.jsOr .vundef (.vnum 0)) 7 = .vnum 7 ∧
    (∃ db2, dbUpdate .vnull "c/d" [("count", .sIncrement 3)]
        (dbSet .vnull "c/d" (.vobj [("count", .vstr "abc")]) none emptyDB) = .ok db2 ∧
      (mapGet db2.storage "c/d").map (fun d => d.data.jsIndex "count") =
        some (JSVal.jsAdd (JSVal.jsOr (.vstr "abc") (.vnum 0)) 3)) ∧
    JSVal.jsAdd (JSVal.jsOr (.vstr "abc") (.vnum 0)) 3 = .vstr "abc3" := by
  refine ⟨?_, by decide, ?_, by decide, ?_, by decide⟩
  · have := update_increment_semantics .vnull "c/d" "count" 3
      (dbSet .vnull "c/d" (.vobj [("count", .vnum 5)]) none emptyDB)
      ⟨"d", "c/d", .vobj [("count", .vnum 5)], true⟩ [("count", .vnum 5)]
      (by decide) rfl rfl (by decide)
    simpa using this
  · have := update_increment_semantics .vnull "c/d" "count" 7
      (dbSet .vnull "c/d" (.vobj [("other", .vnum 1)]) none emptyDB)
      ⟨"d", "c/d", .vobj [("other", .vnum 1)], true⟩ [("other", .vnum 1)]
      (by decide) rfl rfl (by decide)
    simpa using this
  · have := update_increment_semantics .vnull "c/d" "count" 3
      (dbSet .vnull "c/d" (.vobj [("count", .vstr "abc")]) none emptyDB)
      ⟨"d", "c/d", .vobj [("count", .vstr "abc")], true⟩ [("count", .vstr "abc")]
      (by decide) rfl rfl (by decide)
    simpa using this

/-- C6 counterexample: with `count` holding the non-empty (truthy,
non-numeric) string `"abc"`, `update({count: increment(3)})` stores the
concatenation `"abc3"`, not the claimed `0 + 3 == 3`. -/
theorem update_increment_counterexample :
    (dbUpdate .vnull "c/d" [("count", .sIncrement 3)]
        (dbSet .vnull "c/d" (.vobj [("count", .vstr "abc")]) none emptyDB)).map
        (fun db2 => (mapGet db2.storage "c/d").map (fun d => d.data.jsIndex "count")) =
      .ok (some (.vstr "abc3")) ∧
    JSVal.vstr "abc3" ≠ .vnum 3 := by
  refine ⟨by decide, by decide⟩

/-! ## Claim C10: `seed` -/

theorem emitDocumentChange_storage (p : String) (db : DBState) :
    (emitDocumentChange p db).storage = db.storage := by
  obtain ⟨D, wb, ts, qb, h⟩ := emitDocumentChange_shape p db
  rw [h]

theorem emitDocumentChange_triggerLog (p : String) (db : DBState) :
    (emitDocumentChange p db).triggerLog = db.triggerLog := by
  obtain ⟨D, wb, ts, qb, h⟩ := emitDocumentChange_shape p db
  rw [h]

theorem emitDocumentChange_triggerBuffers (p : String) (db : DBState) :
    (emitDocumentChange p db).triggerBuffers = db.triggerBuffers := by
  obtain ⟨D, wb, ts, qb, h⟩ := emitDocumentChange_shape p db
  rw [h]

/-- C10: `seed(path, data)` synchronously stores `{...data}` — a top-level
copy with no sentinel resolution and no merge logic — and then notifies
through exactly the `emitDocumentChange` entry point every committed write
uses (document watchers of the path notified, all query watchers marked
dirty); it records no trigger event, so the trigger invocation log and the
trigger buffers are untouched no matter what triggers are registered. -/
theorem seed_semantics (path : String) (data : JSVal) (db : DBState) :
    dbSeed path data db =
      emitDocumentChange path
        { db with storage := (mapSet db.storage path
            ⟨((splitOnChar '/' path).getLast?).getD "", path,
              .vobj (spreadToObj data), true⟩) } ∧
    mapGet (dbSeed path data db).storage path =
      some ⟨((splitOnChar '/' path).getLast?).getD "", path,
        .vobj (spreadToObj data), true⟩ ∧
    (dbSeed path data db).triggerLog = db.triggerLog ∧
    (dbSeed path data db).triggerBuffers = db.triggerBuffers := by
  refine ⟨rfl, ?_, ?_, ?_⟩
  · show mapGet (emitDocumentChange path _).storage path = _
    rw [emitDocumentChange_storage]
    exact mapGet_mapSet_self _ _ _
  · show (emitDocumentChange path _).triggerLog = _
    rw [emitDocumentChange_triggerLog]
  · show (emitDocumentChange path _).triggerBuffers = _
    rw [emitDocumentChange_triggerBuffers]

/-! ## Claim C8: `count()` agrees with `get().size` -/

/-- C8: for every query configuration and store state, `count()` returns
exactly the number of documents `get()` materialises — the two duplicated
six-stage pipelines coincide. -/
theorem queryCount_eq_queryGet_length (q : QueryConfig) (storage : Storage) :
    queryCount q storage = (queryGet q storage).length := by
  rfl

/-! ## Claim C4: collection vs collection-group scoping -/

theorem splitOnCharAux_length_pos (sep : Char) (cs : List Char) (acc : List Char) :
    0 < (splitOnCharAux sep cs acc).length := by
  induction cs generalizing acc with
  | nil => simp [splitOnCharAux]
  | cons c rest ih =>
      by_cases h : c == sep
      · simp [splitOnCharAux, h]
      · simp only [splitOnCharAux, h]
        exact ih _

theorem splitOnCharAux_single (sep : Char) (cs : List Char) (acc : List Char)
    (h : (splitOnCharAux sep cs acc).length = 1) :
    (splitOnCharAux sep cs acc).headD "" = String.mk (acc.reverse ++ cs) := by
  induction cs generalizing acc with
  | nil => simp [splitOnCharAux]
  | cons c rest ih =>
      by_cases hc : c == sep
      · exfalso
        simp only [splitOnCharAux, hc, if_true, List.length_cons] at h
        have := splitOnCharAux_length_pos sep rest ([] : List Char)
        omega
      · simp only [splitOnCharAux, hc, Bool.false_eq_true, if_false] at h ⊢
        rw [ih _ h]
        simp

/-- A split with a single piece is the whole (separator-free) string. -/
theorem splitOnChar_single (sep : Char) (s : String)
    (h : (splitOnChar sep s).length = 1) :
    (splitOnChar sep s).headD "" = s := by
  unfold splitOnChar at *
  rw [splitOnCharAux_single sep s.toList [] h]
  rfl

/-- Modelled from the spec (§4.2 scoping rule, collection-group side): a
bare collection name matches any document whose immediate parent path
segment equals that name, independent of the rest of the ancestry. -/
def groupScopeMatches (name : String) (docPath : String) : Bool :=
  let parts := splitOnChar '/' docPath
  decide (2 ≤ parts.length) && (parts.get? (parts.length - 2)).getD "" == name

/-- Modelled from the spec (§4.2 scoping rule, collection side): a
collection query matches documents exactly one path segment deeper than,
and path-prefixed by, the scope. -/
def collectionScopeMatches (scope : String) (docPath : String) : Bool :=
  let sparts := splitOnChar '/' scope
  let dparts := splitOnChar '/' docPath
  decide (dparts.length = sparts.length + 1) &&
    decide (dparts.take sparts.length = sparts)

theorem zip_all_eq_take (sparts dparts : List String)
    (h : sparts.length ≤ dparts.length) :
    ((dparts.zip sparts).all fun p => p.1 == p.2) =
      decide (dparts.take sparts.length = sparts) := by
  induction sparts generalizing dparts with
  | nil => simp
  | cons sp ss ih =>
      cases dparts with
      | nil => simp at h
      | cons d ds =>
          simp only [List.zip_cons_cons, List.all_cons, List.length_cons,
            List.take_succ_cons]
          rw [ih ds (by simpa using h)]
          by_cases hd : d = sp
          · simp [hd]
          · simp [hd]

/-- C4 (amended): a query whose scope path is a single segment — which is
what both `collectionGroup(name)` and a top-level `collection(name)`
produce — matches any existing document anywhere whose immediate parent
segment equals that name; a multi-segment scope matches exactly the
existing documents one segment deeper and path-prefixed by it.  A
filter-free query evaluates to exactly the scope-matching existing
documents in store order. -/
theorem isInCollection_characterization (q : QueryConfig) (docPath : String)
    (storage : Storage) :
    (isInCollection q docPath =
      if (splitOnChar '/' q.collectionPath).length = 1 then
        groupScopeMatches q.collectionPath docPath
      else
        collectionScopeMatches q.collectionPath docPath) ∧
    (queryGet { collectionPath := q.collectionPath } storage =
      ((storage : List (String × StoredDoc)).filter
        (fun p => isInCollection { collectionPath := q.collectionPath } p.1 &&
          p.2.exists_)).map (·.2)) := by
  constructor
  · unfold isInCollection groupScopeMatches collectionScopeMatches
    simp only [beq_iff_eq, bne_iff_ne]
    by_cases hc : (splitOnChar '/' q.collectionPath).length = 1
    · rw [if_pos hc, if_pos hc,
        splitOnChar_single '/' q.collectionPath hc]
      by_cases hlen : (splitOnChar '/' docPath).length < 2
      · rw [if_pos hlen]
        have h2 : ¬(2 ≤ (splitOnChar '/' docPath).length) := by omega
        simp [h2]
      · rw [if_neg hlen]
        have h2 : 2 ≤ (splitOnChar '/' docPath).length := by omega
        simp [h2]
    · rw [if_neg hc, if_neg hc]
      by_cases hlen : (splitOnChar '/' docPath).length =
          (splitOnChar '/' q.collectionPath).length + 1
      · rw [if_neg (by simp [hlen])]
        rw [zip_all_eq_take (splitOnChar '/' q.collectionPath)
          (splitOnChar '/' docPath) (by omega)]
        simp [hlen]
      · rw [if_pos hlen]
        simp [hlen]
  · unfold queryGet
    simp only [matchesFilters, List.all_nil, List.length_nil, gt_iff_lt,
      lt_self_iff_false, if_false, List.filter_true]
    exact List.filter_eq_self.mpr (fun a _ => rfl)

/-- C4 counterexample: with a document at `teams/t1/users/u1` (whose parent
collection is named `users` but which is three segments deeper than the
scope), the query built from `collection('users')` matches it — a
"collection" query on a single-segment top-level scope does not match only
`users/<id>` documents. -/
theorem collection_scope_counterexample :
    (queryGet { collectionPath := "users" }
        [("teams/t1/users/u1", ⟨"u1", "teams/t1/users/u1", .vobj [], true⟩)]).map
      (·.path) = ["teams/t1/users/u1"] ∧
    (splitOnChar '/' "teams/t1/users/u1").length ≠ 2 ∧
    (splitOnChar '/' "teams/t1/users/u1").take 1 ≠ ["users"] := by
  refine ⟨by decide, by decide, by decide⟩

/-! ## Claim C7: unsubscribe semantics -/

/-- C7 counterexample: subscribing a document watcher schedules the initial
current-state microtask; unsubscribing before it runs does not cancel it —
the callback of the already-unsubscribed watcher still receives the
delivery (the scheduled closure captured the listener and never re-checks
membership).  The same holds for a query watcher's initial evaluation. -/
theorem unsubscribe_scheduled_delivery_counterexample :
    (runPendingTask
        (unsubscribeDocWatcher "a/b" 1 (addDocumentWatcher "a/b" 1 emptyDB))).docDeliveryLog =
      [(1, "a/b", none)] ∧
    (unsubscribeDocWatcher "a/b" 1 (addDocumentWatcher "a/b" 1 emptyDB)).docWatchers = [] ∧
    (runPendingTask
        (unsubscribeQueryWatcher 5 (addQueryWatcher 5 emptyDB))).queryDeliveryLog = [5] ∧
    (unsubscribeQueryWatcher 5 (addQueryWatcher 5 emptyDB)).queryWatchers = [] := by
  refine ⟨by decide, by decide, by decide, by decide⟩

theorem lookupWatchersEntry_set_self (w : List (String × List Nat)) (path : String)
    (ids : List Nat) :
    lookupWatchersEntry (setWatchers w path ids) path = some ids := by
  induction w with
  | nil => simp [setWatchers, lookupWatchersEntry]
  | cons kv rest ih =>
      obtain ⟨k, v⟩ := kv
      by_cases h : k == path
      · simp [setWatchers, h, lookupWatchersEntry]
      · simp [setWatchers, h, lookupWatchersEntry, ih]

theorem setWatchers_setWatchers (w : List (String × List Nat)) (path : String)
    (ids : List Nat) :
    setWatchers (setWatchers w path ids) path ids = setWatchers w path ids := by
  induction w with
  | nil => simp [setWatchers]
  | cons kv rest ih =>
      obtain ⟨k, v⟩ := kv
      by_cases h : k == path
      · simp [setWatchers, h]
      · simp [setWatchers, h, ih]

theorem lookupWatchersEntry_none_of_not_mem (w : List (String × List Nat))
    (path : String) (h : ∀ kv ∈ w, kv.1 ≠ path) :
    lookupWatchersEntry w path = none := by
  induction w with
  | nil => rfl
  | cons kv rest ih =>
      obtain ⟨k, v⟩ := kv
      have hk : ¬(k == path) = true := by simpa using h (k, v) (by simp)
      simp only [lookupWatchersEntry, hk, Bool.false_eq_true, if_false]
      exact ih (fun kv2 hm => h kv2 (List.mem_cons_of_mem _ hm))

theorem lookupWatchersEntry_remove_self (w : List (String × List Nat)) (path : String)
    (hkeys : (w.map (·.1)).Nodup) :
    lookupWatchersEntry (removeWatcherEntry w path) path = none := by
  induction w with
  | nil => rfl
  | cons kv rest ih =>
      obtain ⟨k, v⟩ := kv
      simp only [List.map_cons, List.nodup_cons] at hkeys
      by_cases h : (k == path) = true
      · simp only [removeWatcherEntry, h, if_true]
        refine lookupWatchersEntry_none_of_not_mem rest path ?_
        intro kv2 hm hcon
        apply hkeys.1
        have hkp : k = path := by simpa using h
        rw [hkp, ← hcon]
        exact List.mem_map_of_mem (·.1) hm
      · simp only [removeWatcherEntry, h, Bool.false_eq_true, if_false,
          lookupWatchersEntry]
        exact ih hkeys.2

theorem lookupWatchersEntry_mem (w : List (String × List Nat)) (path : String)
    (ids : List Nat) (h : lookupWatchersEntry w path = some ids) :
    (path, ids) ∈ w := by
  induction w with
  | nil => exact absurd h (by simp [lookupWatchersEntry])
  | cons kv rest ih =>
      obtain ⟨k, v⟩ := kv
      by_cases hk : (k == path) = true
      · have hkp : k = path := by simpa using hk
        simp only [lookupWatchersEntry, hk, if_true, Option.some.injEq] at h
        subst hkp h
        exact List.mem_cons_self _ _
      · simp only [lookupWatchersEntry, hk, Bool.false_eq_true, if_false] at h
        exact List.mem_cons_of_mem _ (ih h)

/-- C7 (amended): the unsubscribe closures are idempotent — calling either
a second time (including from inside a delivery callback) is a no-op on
the state — and once unsubscribed a watcher receives none of the
deliveries *initiated afterwards* (`deliverDocumentSnapshot` reads the
current listener set); but a notification already scheduled and not yet
executed at unsubscribe time — the initial current-state microtask of
`addDocumentWatcher` / `addQueryWatcher` and any pending query
re-evaluation — still fires unconditionally, because the scheduled closure
captured the listener. -/
theorem unsubscribe_semantics (db : DBState) (path : String)
    (listenerId watcherId : Nat)
    (hkeys : (db.docWatchers.map (·.1)).Nodup)
    (hvals : ∀ kv ∈ db.docWatchers, (kv.2 : List Nat).Nodup)
    (hq : db.queryWatchers.Nodup) :
    unsubscribeDocWatcher path listenerId (unsubscribeDocWatcher path listenerId db) =
      unsubscribeDocWatcher path listenerId db ∧
    unsubscribeQueryWatcher watcherId (unsubscribeQueryWatcher watcherId db) =
      unsubscribeQueryWatcher watcherId db ∧
    (∀ p2 i2 rest, db.pendingTasks = .initialDoc p2 i2 :: rest →
      runPendingTask db = { db with
        pendingTasks := rest,
        docDeliveryLog := db.docDeliveryLog ++
          [(i2, p2, (createStaticSnapshot p2 (mapGet db.storage p2)).dataIfExists)] }) ∧
    (∀ i2 rest, db.pendingTasks = .queryEval i2 :: rest →
      runPendingTask db = { db with
        pendingTasks := rest,
        queryDeliveryLog := db.queryDeliveryLog ++ [i2] }) ∧
    (listenerId ∉ lookupWatchers db.docWatchers path →
      (deliverDocumentSnapshot path db).docDeliveryLog.filter
          (fun e => e.1 == listenerId) =
        db.docDeliveryLog.filter (fun e => e.1 == listenerId)) := by
  refine ⟨?_, ?_, ?_, ?_, ?_⟩
  · unfold unsubscribeDocWatcher
    cases hl : lookupWatchersEntry db.docWatchers path with
    | none => simp [hl]
    | some ids =>
        have hnodup : ids.Nodup := hvals (path, ids) (lookupWatchersEntry_mem _ _ _ hl)
        have hnotmem : listenerId ∉ ids.erase listenerId := by
          intro hmem
          exact absurd (hnodup.mem_erase_iff.mp hmem).1 (by simp)
        by_cases hemp : (ids.erase listenerId).isEmpty
        · simp only [hl, hemp, if_true]
          rw [lookupWatchersEntry_remove_self db.docWatchers path hkeys]
        · simp only [hl, hemp, Bool.false_eq_true, if_false,
            lookupWatchersEntry_set_self, List.erase_of_not_mem hnotmem, hemp,
            setWatchers_setWatchers]
  · unfold unsubscribeQueryWatcher
    have hnotmem : watcherId ∉ db.queryWatchers.erase watcherId := by
      intro hmem
      exact absurd (hq.mem_erase_iff.mp hmem).1 (by simp)
    simp [List.erase_of_not_mem hnotmem]
  · intro p2 i2 rest h
    unfold runPendingTask
    rw [h]
  · intro i2 rest h
    unfold runPendingTask
    rw [h]
  · intro hnm
    unfold deliverDocumentSnapshot
    by_cases hemp : (lookupWatchers db.docWatchers path).isEmpty
    · simp [hemp]
    · simp only [hemp, Bool.false_eq_true, if_false, List.filter_append]
      rw [List.filter_map]
      have : (lookupWatchers db.docWatchers path).filter
          ((fun e => e.1 == listenerId) ∘
            (fun id => (id, path,
              (createStaticSnapshot path (mapGet db.storage path)).dataIfExists))) = [] := by
        apply List.filter_eq_nil_iff.mpr
        intro a ha
        simp only [Function.comp]
        intro hcon
        have ha2 : a = listenerId := by simpa using hcon
        exact hnm (ha2 ▸ ha)
      rw [this]
      simp

/-- Witness for `unsubscribe_semantics` on a database with one document
watcher and one query watcher. -/
theorem unsubscribe_semantics_witness :
    (unsubscribeDocWatcher "a/b" 2 (unsubscribeDocWatcher "a/b" 2
        (addDocumentWatcher "a/b" 1 (addQueryWatcher 5 emptyDB))) =
      unsubscribeDocWatcher "a/b" 2
        (addDocumentWatcher "a/b" 1 (addQueryWatcher 5 emptyDB))) ∧
    ((deliverDocumentSnapshot "a/b"
          (addDocumentWatcher "a/b" 1 (addQueryWatcher 5 emptyDB))).docDeliveryLog.filter
        (fun e => e.1 == 2) =
      (addDocumentWatcher "a/b" 1 (addQueryWatcher 5 emptyDB)).docDeliveryLog.filter
        (fun e => e.1 == 2)) := by
  have h := unsubscribe_semantics
    (addDocumentWatcher "a/b" 1 (addQueryWatcher 5 emptyDB))
    "a/b" 2 5 (by decide) (by decide) (by decide)
  exact ⟨h.1, h.2.2.2.2 (by decide)⟩

/-! ## Claim C3: plain set / get round-trip and snapshot aliasing -/

mutual

/-- No `FieldValue` sentinel marker anywhere in the value. -/
def sentinelFree : JSVal → Bool
  | .vobj fields => sentinelFreeFields fields
  | .varr elems => sentinelFreeElems elems
  | .sIncrement _ => false
  | .sServerTimestamp => false
  | .sDelete => false
  | _ => true

def sentinelFreeFields : List (String × JSVal) → Bool
  | [] => true
  | (_, v) :: rest => sentinelFree v && sentinelFreeFields rest

def sentinelFreeElems : List JSVal → Bool
  | [] => true
  | v :: rest => sentinelFree v && sentinelFreeElems rest

end

mutual

theorem processFVNestedEntry_id (now : JSVal) :
    ∀ (v e : JSVal), sentinelFree v = true → processFVNestedEntry now v e = v
  | .vobj fields, e, h =>
      congrArg JSVal.vobj
        (processFVNestedFields_id now fields e (by simpa [sentinelFree] using h))
  | .varr _, _, _ => rfl
  | .vnum _, _, _ => rfl
  | .vnan, _, _ => rfl
  | .vstr _, _, _ => rfl
  | .vbool _, _, _ => rfl
  | .vnull, _, _ => rfl
  | .vundef, _, _ => rfl
  | .vtimestamp _ _, _, _ => rfl
  | .sIncrement _, _, h => by simp [sentinelFree] at h
  | .sServerTimestamp, _, h => by simp [sentinelFree] at h
  | .sDelete, _, h => by simp [sentinelFree] at h

theorem processFVNestedFields_id (now : JSVal) :
    ∀ (l : List (String × JSVal)) (ex : JSVal), sentinelFreeFields l = true →
      processFVNestedFields now l ex = l
  | [], _, _ => rfl
  | (k, v) :: rest, ex, h => by
      simp only [sentinelFreeFields, Bool.and_eq_true] at h
      simp only [processFVNestedFields]
      rw [processFVNestedEntry_id now v (ex.jsIndex k) h.1,
        processFVNestedFields_id now rest ex h.2]

end

/-- The observable of `StubDocumentReference.get` followed by
`StubDocumentSnapshot.data()`. -/
def snapshotData (doc : Option StoredDoc) : Option JSVal :=
  match doc with
  | some d => if d.exists_ then some d.data else none
  | none => none

/-- C3 (amended): a plain non-merge `set(path, data)` followed by
`get(path)` yields `data()` equal to the written payload with sentinels
resolved against an empty baseline — for sentinel-free object payloads,
exactly the payload.  But the value `data()` returns is the stored object
itself, by reference (the heap model's snapshot hands back the stored
`dataRef` with no `cloneValue`), so mutating it mutates stored state and
is visible to every later `get(path)`.  Only the `StaticDocumentSnapshot`s
used for triggers and watcher deliveries clone. -/
theorem set_get_roundtrip_and_alias (now : JSVal) (path : String) (data : JSVal)
    (db : DBState) (fields : List (String × JSVal)) (st : HStore) (d : HDoc)
    (hdata : data = .vobj fields)
    (hfree : sentinelFree data = true)
    (hd : hstoreGet st.storage path = some d)
    (hex : d.exists_ = true) :
    snapshotData (mapGet (dbSet now path data none db).storage path) = some data ∧
    hSnapshotData (hstoreGet st.storage path) = some d.dataRef := by
  constructor
  · obtain ⟨L, tb, D, wb, ts, qb, h⟩ := dbSet_shape now path data none db
    rw [h]
    show snapshotData (mapGet (mapSet db.storage path _) path) = _
    rw [mapGet_mapSet_self]
    subst hdata
    simp only [sentinelFree] at hfree
    unfold snapshotData setNewData
    cases mapGet db.storage path with
    | none =>
        simp only [if_pos rfl]
        rw [show processFieldValues now (.vobj fields) (.vobj []) =
          .vobj (processFVNestedFields now fields (.vobj [])) from rfl]
        rw [processFVNestedFields_id now fields (.vobj []) hfree]
        rfl
    | some existing =>
        simp only [if_pos rfl]
        rw [show processFieldValues now (.vobj fields) (.vobj []) =
          .vobj (processFVNestedFields now fields (.vobj [])) from rfl]
        rw [processFVNestedFields_id now fields (.vobj []) hfree]
        rfl
  · rw [hd]
    unfold hSnapshotData
    simp [hex]

/-- Witness for `set_get_roundtrip_and_alias` at `{x: 1}`. -/
theorem set_get_roundtrip_and_alias_witness :
    snapshotData (mapGet
        (dbSet .vnull "users/u1" (.vobj [("x", .vnum 1)]) none emptyDB).storage
        "users/u1") = some (.vobj [("x", .vnum 1)]) ∧
    hSnapshotData (hstoreGet
        [("users/u1", ⟨"u1", "users/u1", .href 2, true⟩)] "users/u1") =
      some (HVal.href 2) := by
  have h := set_get_roundtrip_and_alias .vnull "users/u1" (.vobj [("x", .vnum 1)])
    emptyDB [("x", .vnum 1)]
    ⟨emptyHeap, [("users/u1", ⟨"u1", "users/u1", .href 2, true⟩)]⟩
    ⟨"u1", "users/u1", .href 2, true⟩ rfl (by decide) (by decide) rfl
  exact h

/-- The heap state after the user allocates `{x: 1}` and plain-sets it at
`users/u1` on a fresh store. -/
def c3Setup : HStore :=
  hset 8 "users/u1" (allocObj emptyHeap [("x", .hnum 1)]).2
    { heap := (allocObj emptyHeap [("x", .hnum 1)]).1, storage := [] }

/-- The same store after the caller mutates `x` to `2` *through the object
returned by `data()`* (which is the heap object at address 2). -/
def c3Mutated : HStore :=
  { c3Setup with heap := heapSetField c3Setup.heap 2 "x" (.hnum 2) }

/-- C3 counterexample: `data()` hands back the stored reference (address
2); before mutation a read shows `{x: 1}`, and after assigning through the
returned object a later `get(path).data()` shows `{x: 2}` — mutating the
returned value changed what later reads return, so it is not a defensive
deep clone. -/
theorem snapshot_data_alias_counterexample :
    hSnapshotData (hstoreGet c3Setup.storage "users/u1") = some (.href 2) ∧
    hResolve 8 c3Setup.heap (.href 2) = .vobj [("x", .vnum 1)] ∧
    hResolve 8 c3Mutated.heap
      ((hSnapshotData (hstoreGet c3Mutated.storage "users/u1")).getD .hnull) =
      .vobj [("x", .vnum 2)] ∧
    JSVal.vobj [("x", .vnum 2)] ≠ .vobj [("x", .vnum 1)] := by
  refine ⟨by decide, by decide, by decide, by decide⟩

/-! ## C9: pagination with `orderBy(field).limit(k)` + `startAfter(lastDoc)` -/

/-- Decidability of list disjointness (used to check concrete page lists). -/
instance instDecidableListDisjoint [DecidableEq α] (l1 l2 : List α) :
    Decidable (List.Disjoint l1 l2) :=
  decidable_of_iff (∀ a ∈ l1, a ∉ l2) Iff.rfl

/-- The client-side paging loop of the claim: fetch a page with `runPage`
(the current cursor, `none` on the first fetch), stop as soon as a page is
smaller than `k`, otherwise continue with the page's last document as the
next cursor.  `fuel` bounds the number of fetches (the loop itself is
unbounded in the client). -/
def paginate (k : Nat) (runPage : Option StoredDoc → List StoredDoc) :
    Nat → Option StoredDoc → List (List StoredDoc)
  | 0, _ => []
  | fuel + 1, cursor =>
      if (runPage cursor).length < k then [runPage cursor]
      else
        match (runPage cursor).getLast? with
        | some d => runPage cursor :: paginate k runPage fuel (some d)
        | none => [runPage cursor]

/-- When the documents of `l` have pairwise-distinct ids, the JS
`findIndex` scan for the id of the document at position `i` returns
exactly `i`. -/
theorem jsFindIndex_eq_of_nodup (l : List StoredDoc) (i : Nat) (d : StoredDoc)
    (hnodup : (l.map (fun x => x.id)).Nodup) (hd : l[i]? = some d) :
    jsFindIndex (fun doc => doc.id == d.id) l = (i : Int) := by
  induction l generalizing i with
  | nil => simp at hd
  | cons x xs ih =>
      rw [List.map_cons, List.nodup_cons] at hnodup
      obtain ⟨hx, hxs⟩ := hnodup
      cases i with
      | zero =>
          have hxd : x = d := by simpa using hd
          subst hxd
          simp [jsFindIndex]
      | succ n =>
          have hd' : xs[n]? = some d := by simpa using hd
          have hmem : d.id ∈ xs.map (fun x => x.id) :=
            List.mem_map_of_mem _ (List.getElem?_mem hd')
          have hne : (x.id == d.id) = false := by
            apply beq_eq_false_iff_ne.mpr
            intro hcontra
            exact hx (hcontra ▸ hmem)
          have hrec := ih n hxs hd'
          simp only [jsFindIndex, hne, Bool.false_eq_true, if_false, hrec]
          have : ¬ ((n : Int) < 0) := by omega
          rw [if_neg this]
          omega

/-- Chunking lemma for the paging loop: if the first fetch returns the
first `k` of a fixed sequence `F` and every cursor fetch returns the `k`
elements after the cursor's position in `F`, the concatenation of all
pages reconstructs `F` (given enough fuel). -/
theorem paginate_flatten_aux (k : Nat) (F : List StoredDoc)
    (runPage : Option StoredDoc → List StoredDoc)
    (hk : 1 ≤ k)
    (h1 : runPage none = F.take k)
    (h2 : ∀ (i : Nat) (d : StoredDoc), F[i]? = some d →
      runPage (some d) = (F.drop (i + 1)).take k) :
    ∀ (fuel m : Nat) (cursor : Option StoredDoc),
      F.length ≤ m + fuel * k →
      ((m = 0 ∧ cursor = none) ∨
        (1 ≤ m ∧ ∃ d, F[m - 1]? = some d ∧ cursor = some d)) →
      (paginate k runPage fuel cursor).flatten = F.drop m := by
  intro fuel
  induction fuel with
  | zero =>
      intro m cursor hle _
      have hm : F.length ≤ m := by simpa using hle
      simp [paginate, List.drop_eq_nil_of_le hm]
  | succ fuel ih =>
      intro m cursor hle hinv
      have hpage : runPage cursor = (F.drop m).take k := by
        rcases hinv with ⟨hm, hc⟩ | ⟨hm, d, hd, hc⟩
        · subst hm; subst hc; simpa using h1
        · subst hc
          rw [h2 (m - 1) d hd]
          have hm1 : m - 1 + 1 = m := by omega
          rw [hm1]
      by_cases hshort : ((F.drop m).take k).length < k
      · have hlen : (F.drop m).length < k := by
          rw [List.length_take] at hshort
          omega
        have htake : (F.drop m).take k = F.drop m :=
          List.take_of_length_le (by omega)
        simp only [paginate, hpage, htake]
        rw [if_pos hlen]
        simp
      · have hklen : k ≤ (F.drop m).length := by
          rw [List.length_take] at hshort
          omega
        have hdroplen : (F.drop m).length = F.length - m := List.length_drop m F
        have hplen : ((F.drop m).take k).length = k := by
          rw [List.length_take]
          omega
        have hFlen : m + (k - 1) < F.length := by omega
        have hidx : ((F.drop m).take k)[k - 1]? = F[m + (k - 1)]? := by
          rw [List.getElem?_take, if_pos (by omega), List.getElem?_drop]
        obtain ⟨d', hd'⟩ : ∃ d', F[m + (k - 1)]? = some d' :=
          ⟨F.get ⟨m + (k - 1), hFlen⟩, List.getElem?_eq_getElem hFlen⟩
        have hlast : ((F.drop m).take k).getLast? = some d' := by
          rw [List.getLast?_eq_getElem?, hplen, hidx]
          exact hd'
        have hmulsucc : (fuel + 1) * k = fuel * k + k := Nat.succ_mul fuel k
        have hrec : (paginate k runPage fuel (some d')).flatten = F.drop (m + k) := by
          apply ih (m + k) (some d')
          · omega
          · right
            refine ⟨by omega, d', ?_, rfl⟩
            have : m + k - 1 = m + (k - 1) := by omega
            rw [this]
            exact hd'
        simp only [paginate, hpage]
        rw [if_neg hshort, hlast]
        show ((F.drop m).take k :: paginate k runPage fuel (some d')).flatten = F.drop m
        rw [List.flatten_cons, hrec]
        exact List.drop_take_append_drop F m k

/-- C9: pagination via `orderBy.limit(k).get()` then repeated
`startAfter(lastDoc).limit(k).get()` against an unmutated store.  As
stated the claim is false (see
`pagination_duplicate_id_counterexample`): the cursor is located by
scanning for the first result with the cursor document's *id*, so when
two matched documents share an id (possible for the single-segment /
collection-group scopes, which match by parent segment name across
different ancestries) a later page can restart behind an earlier
duplicate, repeating documents forever.  Amended: whenever the matched
documents have pairwise-distinct ids — in particular for every
multi-segment collection scope, where ids are unique because paths are —
the pages are pairwise disjoint and their in-order concatenation is
exactly the full ordered result, with no document skipped or repeated.
(`fuel` bounds the unbounded client loop; `F.length ≤ fuel * k` gives the
loop enough iterations to drain the result.) -/
theorem pagination_chunks_semantics (scope : String) (fs : List QueryFilter)
    (ords : List QueryOrder) (storage : Storage) (k fuel : Nat)
    (hk : 1 ≤ k)
    (hnodup : ((queryGet ⟨scope, fs, ords, none, 0, none, none⟩ storage).map
      (fun d => d.id)).Nodup)
    (hfuel : (queryGet ⟨scope, fs, ords, none, 0, none, none⟩ storage).length ≤
      fuel * k) :
    (paginate k
        (fun c => queryGet
          ⟨scope, fs, ords, some k, 0,
            c.map (fun d => [SAValue.snap d.id]), none⟩ storage)
        fuel none).flatten =
      queryGet ⟨scope, fs, ords, none, 0, none, none⟩ storage ∧
    List.Pairwise List.Disjoint
      (paginate k
        (fun c => queryGet
          ⟨scope, fs, ords, some k, 0,
            c.map (fun d => [SAValue.snap d.id]), none⟩ storage)
        fuel none) := by
  have h1 :
      (fun (c : Option StoredDoc) => queryGet
        ⟨scope, fs, ords, some k, 0,
          c.map (fun d => [SAValue.snap d.id]), none⟩ storage) none =
      (queryGet ⟨scope, fs, ords, none, 0, none, none⟩ storage).take k := rfl
  have h2 : ∀ (i : Nat) (d : StoredDoc),
      (queryGet ⟨scope, fs, ords, none, 0, none, none⟩ storage)[i]? = some d →
      (fun (c : Option StoredDoc) => queryGet
        ⟨scope, fs, ords, some k, 0,
          c.map (fun d => [SAValue.snap d.id]), none⟩ storage) (some d) =
      ((queryGet ⟨scope, fs, ords, none, 0, none, none⟩ storage).drop (i + 1)).take k := by
    intro i d hd
    have hstep :
        (fun (c : Option StoredDoc) => queryGet
          ⟨scope, fs, ords, some k, 0,
            c.map (fun d => [SAValue.snap d.id]), none⟩ storage) (some d) =
        ((if jsFindIndex (fun doc => doc.id == d.id)
              (queryGet ⟨scope, fs, ords, none, 0, none, none⟩ storage) ≥ 0
          then (queryGet ⟨scope, fs, ords, none, 0, none, none⟩ storage).drop
            ((jsFindIndex (fun doc => doc.id == d.id)
              (queryGet ⟨scope, fs, ords, none, 0, none, none⟩ storage)).toNat + 1)
          else queryGet ⟨scope, fs, ords, none, 0, none, none⟩ storage).take k) := rfl
    rw [hstep, jsFindIndex_eq_of_nodup _ i d hnodup hd]
    rw [if_pos (by omega : (i : Int) ≥ 0)]
    norm_num
  have hmain := paginate_flatten_aux k
    (queryGet ⟨scope, fs, ords, none, 0, none, none⟩ storage)
    (fun (c : Option StoredDoc) => queryGet
      ⟨scope, fs, ords, some k, 0,
        c.map (fun d => [SAValue.snap d.id]), none⟩ storage)
    hk h1 h2 fuel 0 none (by simpa using hfuel) (Or.inl ⟨rfl, rfl⟩)
  rw [List.drop_zero] at hmain
  refine ⟨hmain, ?_⟩
  have hFnodup : (queryGet ⟨scope, fs, ords, none, 0, none, none⟩ storage).Nodup :=
    List.Nodup.of_map _ hnodup
  have hflat :
      (paginate k
        (fun (c : Option StoredDoc) => queryGet
          ⟨scope, fs, ords, some k, 0,
            c.map (fun d => [SAValue.snap d.id]), none⟩ storage)
        fuel none).flatten.Nodup := by
    rw [hmain]
    exact hFnodup
  exact (List.nodup_flatten.mp hflat).2

/-- The two-document store of the pagination witness: a top-level
collection `p` with distinct ids. -/
def pgwStorage : Storage :=
  [("p/a", { id := "a", path := "p/a", data := .vobj [("v", .vnum 1)], exists_ := true }),
   ("p/b", { id := "b", path := "p/b", data := .vobj [("v", .vnum 2)], exists_ := true })]

/-- Witness for `pagination_chunks_semantics`: paging through `p` ordered
by `v` with `k = 1` and two fetches. -/
theorem pagination_chunks_semantics_witness :
    (paginate 1
        (fun (c : Option StoredDoc) => queryGet
          ⟨"p", [], [⟨"v", OrderByDirection.asc⟩], some 1, 0,
            c.map (fun d => [SAValue.snap d.id]), none⟩ pgwStorage)
        2 none).flatten =
      queryGet ⟨"p", [], [⟨"v", OrderByDirection.asc⟩], none, 0, none, none⟩ pgwStorage ∧
    List.Pairwise List.Disjoint
      (paginate 1
        (fun (c : Option StoredDoc) => queryGet
          ⟨"p", [], [⟨"v", OrderByDirection.asc⟩], some 1, 0,
            c.map (fun d => [SAValue.snap d.id]), none⟩ pgwStorage)
        2 none) :=
  pagination_chunks_semantics "p" [] [⟨"v", OrderByDirection.asc⟩] pgwStorage 1 2
    (by decide) (by decide) (by decide)

/-- The three-document store of the pagination counterexample: two
different parent documents each with a `c` subdocument called `z`, so the
single-segment (collection-group-style) scope `c` matches two documents
with the same id. -/
def pgStorage : Storage :=
  [("p/1/c/z", { id := "z", path := "p/1/c/z", data := .vobj [("v", .vnum 1)], exists_ := true }),
   ("p/2/c/w", { id := "w", path := "p/2/c/w", data := .vobj [("v", .vnum 2)], exists_ := true }),
   ("p/3/c/z", { id := "z", path := "p/3/c/z", data := .vobj [("v", .vnum 3)], exists_ := true })]

/-- C9 counterexample: over `pgStorage`, paging scope `c` ordered by `v`
with `k = 1` loops — `findStartAfterIndex` resolves the cursor `z` (the
third page's last document) to the *first* document with id `z`, so the
pages repeat `[w], [z@3]` forever; six fetches already show the
concatenation is not the full result and the pages are not pairwise
disjoint. -/
theorem pagination_duplicate_id_counterexample :
    (paginate 1
        (fun (c : Option StoredDoc) => queryGet
          ⟨"c", [], [⟨"v", OrderByDirection.asc⟩], some 1, 0,
            c.map (fun d => [SAValue.snap d.id]), none⟩ pgStorage)
        6 none).flatten ≠
      queryGet ⟨"c", [], [⟨"v", OrderByDirection.asc⟩], none, 0, none, none⟩ pgStorage ∧
    ¬ List.Pairwise List.Disjoint
      (paginate 1
        (fun (c : Option StoredDoc) => queryGet
          ⟨"c", [], [⟨"v", OrderByDirection.asc⟩], some 1, 0,
            c.map (fun d => [SAValue.snap d.id]), none⟩ pgStorage)
        6 none) := by
  decide
